import Mathlib

/-!
Verification of the OncoHotspot mutation-frequency aggregation engine
(repository `aenoriss/OncoHotspot`, directory `data-processing/`).

The embedding models the production aggregator
(`pipeline_production_ready.py`: `ProductionAggregator`), the variant
harmonizer (`silver/transformers/variant_harmonizer.py`) and the gold-layer
sample-count extractor (`gold/aggregators/mutation_aggregator_fixed.py`).

Numeric conventions.  The Python code computes with IEEE doubles and rounds
every published value to 4 decimal places (`round(x, 4)`).  We idealize float
arithmetic as exact real arithmetic and represent every stored/compared value
in fixed point, as an integer count of ten-thousandths (so `frequency = 0.3`
is carried as `3000`).  The Wilson-interval computation is performed with
exact integer arithmetic (an integer square root plus floor divisions) and
theorem `calculate_wilson_ci_models_real` proves that it returns exactly the
4-decimal rounding of the real-number Wilson score formula that the source
code expresses with `np.sqrt` — so the integer definitions are a faithful,
executable rendering of the source computation.  `round(x, 4)` is modeled as
round-half-up `⌊10^4 x + 1/2⌋ / 10^4`; Python rounds ties to even, but none
of the values appearing in the claims sits on an exact tie.
-/

set_option maxRecDepth 2000

namespace Onco


/-! ### Integer square root (used to evaluate `np.sqrt` exactly)

A fuel-driven bisection so every application reduces by kernel computation.
-/

/-- Bisection step for the integer square root: maintains `lo*lo ≤ n < (hi+1)^2`. -/
def sqrtAux : Nat → Nat → Nat → Nat → Nat
  | 0, _, lo, _ => lo
  | f + 1, n, lo, hi =>
    if hi ≤ lo then lo
    else
      let mid := (lo + hi + 1) / 2
      if mid * mid ≤ n then sqrtAux f n mid hi else sqrtAux f n lo (mid - 1)

/-- Integer square root: the greatest `k` with `k*k ≤ n`. -/
def sqrtFloor (n : Nat) : Nat := sqrtAux n n 0 n

/-- Integer ceiling square root: the least `k` with `n ≤ k*k`. -/
def ceilSqrt (n : Nat) : Nat :=
  if sqrtFloor n * sqrtFloor n = n then sqrtFloor n else sqrtFloor n + 1

/-! ### Exact floors of `a/b ± √(u/v)` (all-integer evaluation) -/

/-- Exact value of `⌊a/b + √(u/v)⌋` computed with integer arithmetic
(for `b > 0`, `v > 0`, `u ≥ 0`). -/
def floorQuadAdd (a b u v : ℤ) : ℤ :=
  (a * v + (sqrtFloor (b * b * u * v).toNat : ℤ)) / (b * v)

/-- Exact value of `⌊a/b - √(u/v)⌋` computed with integer arithmetic
(for `b > 0`, `v > 0`, `u ≥ 0`). -/
def floorQuadSub (a b u v : ℤ) : ℤ :=
  (a * v - (ceilSqrt (b * b * u * v).toNat : ℤ)) / (b * v)

/-! ### The Wilson confidence interval

`ProductionAggregator._calculate_wilson_ci` / `CleanAggregator._calculate_wilson_ci`:

```python
p_hat = successes / trials
z = 1.96  # 95% confidence
denominator = 1 + z**2 / trials
center = (p_hat + z**2 / (2 * trials)) / denominator
margin = z * np.sqrt(p_hat * (1 - p_hat) / trials + z**2 / (4 * trials**2)) / denominator
return (round(p_hat, 4), round(max(0, center - margin), 4), round(min(1, center + margin), 4))
```

`wilsonReal` is the direct real-number translation of those lines (the clean
pipeline writes `z = 1.96` literally; the production variant obtains the same
constant as `scipy.stats.norm.ppf(0.975) ≈ 1.95996`, idealized here as the
spec constant 1.96).  `calculate_wilson_ci` evaluates the same three values
exactly, in fixed point (ten-thousandths), over the integers:
`center = cn/cd` and `margin = √(mn/md)` with the closed-form integer
numerators/denominators below, obtained by clearing denominators with
`z² = 2401/625`.  Theorem `calculate_wilson_ci_models_real` proves the two
definitions agree. -/

/-- Numerator of `center`: `center = (1250 s + 2401) / (2 (625 t + 2401))`. -/
def wilson_center_num (s : ℤ) : ℤ := 1250 * s + 2401

/-- Denominator of `center`. -/
def wilson_center_den (t : ℤ) : ℤ := 2 * (625 * t + 2401)

/-- Numerator of `margin²`: `margin² = 2401 (2500 s (t-s) + 2401 t) / (4 t (625 t + 2401)²)`. -/
def wilson_margin_sq_num (s t : ℤ) : ℤ := 2401 * (2500 * s * (t - s) + 2401 * t)

/-- Denominator of `margin²`. -/
def wilson_margin_sq_den (t : ℤ) : ℤ := 4 * t * (625 * t + 2401) ^ 2

/-- Fixed-point `round(p_hat, 4)` in ten-thousandths: `⌊10⁴ s/t + 1/2⌋`. -/
def wilson_freq4 (s t : ℤ) : ℤ := (2 * 10 ^ 4 * s + t) / (2 * t)

/-- Fixed-point `round(max(0, center - margin), 4)` in ten-thousandths. -/
def wilson_lo4 (s t : ℤ) : ℤ :=
  if wilson_center_num s ^ 2 * wilson_margin_sq_den t ≤
      wilson_margin_sq_num s t * wilson_center_den t ^ 2 then 0
  else
    floorQuadSub (2 * 10 ^ 4 * wilson_center_num s + wilson_center_den t)
      (2 * wilson_center_den t) (10 ^ 8 * wilson_margin_sq_num s t) (wilson_margin_sq_den t)

/-- Fixed-point `round(min(1, center + margin), 4)` in ten-thousandths. -/
def wilson_hi4 (s t : ℤ) : ℤ :=
  if wilson_center_den t ≤ wilson_center_num s ∨
      (wilson_center_den t - wilson_center_num s) ^ 2 * wilson_margin_sq_den t ≤
        wilson_margin_sq_num s t * wilson_center_den t ^ 2 then 10 ^ 4
  else
    floorQuadAdd (2 * 10 ^ 4 * wilson_center_num s + wilson_center_den t)
      (2 * wilson_center_den t) (10 ^ 8 * wilson_margin_sq_num s t) (wilson_margin_sq_den t)

/-- Embedding of `_calculate_wilson_ci(successes, trials)` with the z = 1.96
constant of `CleanAggregator._calculate_wilson_ci` (the value the spec
states).  Returns `(frequency, ci_low, ci_high)` in ten-thousandths.
`trials == 0` returns `(0.0, 0.0, 0.0)` as in the source.  The production
variant's `z = stats.norm.ppf(0.975)` differs in the 6th decimal and is
treated separately via `wilsonRealZ` (at successes 30, trials 100 it
produces the different 4-decimal ci_high 0.3958). -/
def calculate_wilson_ci (successes trials : ℕ) : ℤ × ℤ × ℤ :=
  if trials = 0 then (0, 0, 0)
  else (wilson_freq4 successes trials, wilson_lo4 successes trials, wilson_hi4 successes trials)

/-- Python `round(x, 4)` idealized over the reals (round half up; the claims
never touch an exact tie). -/
noncomputable def round4R (x : ℝ) : ℝ := (⌊x * 10 ^ 4 + 1 / 2⌋ : ℝ) / 10 ^ 4

/-- The Wilson score interval exactly as written in
`CleanAggregator._calculate_wilson_ci` (and in the spec): z = 1.96 (the
clean pipeline's literal), p̂ = successes/trials, denom = 1 + z²/trials,
center = (p̂ + z²/(2 trials))/denom,
margin = z √(p̂(1-p̂)/trials + z²/(4 trials²))/denom, clamped and rounded to 4
decimal places.  `ProductionAggregator._calculate_wilson_ci` instead computes
`z = stats.norm.ppf(0.975)` ≈ 1.9599639845; that variant is `wilsonRealZ`
below with z taken in a bracketing interval. -/
noncomputable def wilsonReal (successes trials : ℕ) : ℝ × ℝ × ℝ :=
  if trials = 0 then (0, 0, 0)
  else
    let p_hat : ℝ := (successes : ℝ) / (trials : ℝ)
    let z : ℝ := 1.96
    let denominator : ℝ := 1 + z ^ 2 / (trials : ℝ)
    let center : ℝ := (p_hat + z ^ 2 / (2 * (trials : ℝ))) / denominator
    let margin : ℝ :=
      z * Real.sqrt (p_hat * (1 - p_hat) / (trials : ℝ) + z ^ 2 / (4 * (trials : ℝ) ^ 2)) /
        denominator
    (round4R p_hat, round4R (max 0 (center - margin)), round4R (min 1 (center + margin)))

/-- The same Wilson computation with the z constant left symbolic.
`ProductionAggregator._calculate_wilson_ci` (lines 243-263) computes
`z = stats.norm.ppf(0.975)`, the 0.975 normal quantile 1.95996398454...;
both that real number and its floating-point value lie strictly inside
[1.959963, 1.959965], so `wilsonRealZ z` for every z in that bracket covers
the production computation however the constant is idealized, while
`wilsonRealZ 1.96` is definitionally `wilsonReal`. -/
noncomputable def wilsonRealZ (z : ℝ) (successes trials : ℕ) : ℝ × ℝ × ℝ :=
  if trials = 0 then (0, 0, 0)
  else
    let p_hat : ℝ := (successes : ℝ) / (trials : ℝ)
    let denominator : ℝ := 1 + z ^ 2 / (trials : ℝ)
    let center : ℝ := (p_hat + z ^ 2 / (2 * (trials : ℝ))) / denominator
    let margin : ℝ :=
      z * Real.sqrt (p_hat * (1 - p_hat) / (trials : ℝ) + z ^ 2 / (4 * (trials : ℝ) ^ 2)) /
        denominator
    (round4R p_hat, round4R (max 0 (center - margin)), round4R (min 1 (center + margin)))

/-! ### Association-list utilities (Python `dict` / `set` / `defaultdict`)

Python `dict` preserves first-insertion order of keys; an overwrite keeps the
key's position.  `set`s are modeled as insertion-ordered duplicate-free lists
(their iteration order is unspecified in Python; no claim depends on it). -/

/-- Lookup in an association list (`d.get(k)` / `k in d`). -/
def lookupAssoc {κ β : Type} [DecidableEq κ] (k : κ) : List (κ × β) → Option β
  | [] => none
  | p :: rest => if p.1 = k then some p.2 else lookupAssoc k rest

/-- Insert-or-overwrite (`d[k] = v`), keeping the original key position. -/
def upsert {κ β : Type} [DecidableEq κ] (k : κ) (v : β) : List (κ × β) → List (κ × β)
  | [] => [(k, v)]
  | p :: rest => if p.1 = k then (k, v) :: rest else p :: upsert k v rest

/-- Update-through-default (`defaultdict` access followed by in-place mutation). -/
def updateAssoc {κ β : Type} [DecidableEq κ] (key : κ) (dflt : β) (f : β → β) :
    List (κ × β) → List (κ × β)
  | [] => [(key, f dflt)]
  | p :: rest => if p.1 = key then (p.1, f p.2) :: rest else p :: updateAssoc key dflt f rest

/-- Python `set.add`. -/
def addSet (x : String) (l : List String) : List String := if x ∈ l then l else l ++ [x]

/-- Python `sum(d.values())`. -/
def sumValues (l : List (String × Nat)) : Nat := l.foldl (fun a p => a + p.2) 0

/-- Substring test over char lists (Python `pat in s`). -/
def containsSub (pat : List Char) : List Char → Bool
  | [] => pat.isEmpty
  | c :: rest => pat.isPrefixOf (c :: rest) || containsSub pat rest

/-- Python `pat in s` on strings. -/
def strContains (s pat : String) : Bool := containsSub pat.toList s.toList

/-! ### Data model of `ProductionAggregator` (`pipeline_production_ready.py`) -/

/-- Enum `DataQuality`. -/
inductive DataQuality where
  | populationFrequency
  | occurrenceCount
  | clinicalAnnot
deriving DecidableEq

/-- String payload of the `DataQuality` enum members. -/
def DataQuality.val : DataQuality → String
  | .populationFrequency => "population_frequency"
  | .occurrenceCount => "occurrence_count"
  | .clinicalAnnot => "clinical_annotation"

/-- Raw cBioPortal study record — the fields
`process_cbioportal_with_frequencies` reads.  `none` models an absent (or
JSON-null) key; `cancerTypeName` stands for `study['cancerType']['name']`. -/
structure CBioStudy where
  studyId : Option String
  sequencedSampleCount : Option Nat
  allSampleCount : Option Nat
  cancerTypeName : Option String
deriving DecidableEq

/-- Line 85: `study.get('sequencedSampleCount', 0) or study.get('allSampleCount', 0)`
(Python `or` skips `None` and `0`). -/
def studySampleCount (st : CBioStudy) : Nat :=
  if st.sequencedSampleCount.getD 0 ≠ 0 then st.sequencedSampleCount.getD 0
  else st.allSampleCount.getD 0

/-- Lines 81-92: build `study_denominators`, mapping a study id to
`(total_samples, cancer_type)`; only truthy ids with positive counts enter. -/
def denomStep (m : List (String × Nat × String)) (st : CBioStudy) :
    List (String × Nat × String) :=
  match st.studyId with
  | none => m
  | some sid =>
    if sid ≠ "" ∧ 0 < studySampleCount st then
      upsert sid (studySampleCount st, st.cancerTypeName.getD "Unknown") m
    else m

def buildDenoms (studies : List CBioStudy) : List (String × Nat × String) :=
  studies.foldl denomStep []

/-- Raw cBioPortal mutation record — the fields the aggregation loop reads.
`hugoGeneSymbol` stands for `mut['gene']['hugoGeneSymbol']`. -/
structure CBioMutation where
  studyId : Option String
  hugoGeneSymbol : Option String
  proteinChange : Option String
  sampleId : Option String
deriving DecidableEq

/-- Aggregation key `(gene, cancer_type, protein_change)`. -/
abbrev AggKey := String × String × String

/-- Per-key state of the `defaultdict` at lines 96-100: the distinct-sample
set, the distinct-study set and the per-study denominator dict. -/
structure GroupData where
  samples : List String
  studies : List String
  study_denoms : List (String × Nat)
deriving DecidableEq

/-- Initial `defaultdict` value (lines 96-100). -/
def emptyGroup : GroupData := ⟨[], [], []⟩

/-- Lines 102-117: group the mutations.  A mutation whose `studyId` is not a
key of the denominator map is skipped (`continue`); otherwise the group keyed
by (gene, cancer type of the study, protein change) absorbs the sample id
(`f"{study_id}:{sampleId}"`; a missing sample id prints as `"None"`), the
study id, and the study's denominator. -/
def groupStep (denoms : List (String × Nat × String))
    (aggregated : List (AggKey × GroupData)) (mu : CBioMutation) :
    List (AggKey × GroupData) :=
  match mu.studyId with
  | none => aggregated
  | some sid =>
    match lookupAssoc sid denoms with
    | none => aggregated
    | some info =>
      let key : AggKey :=
        (mu.hugoGeneSymbol.getD "Unknown", info.2, mu.proteinChange.getD "Unknown")
      updateAssoc key emptyGroup
        (fun agg =>
          { samples := addSet (sid ++ ":" ++ mu.sampleId.getD "None") agg.samples
            studies := addSet sid agg.studies
            study_denoms := upsert sid info.1 agg.study_denoms })
        aggregated

def buildGroups (mutations : List CBioMutation) (denoms : List (String × Nat × String)) :
    List (AggKey × GroupData) :=
  mutations.foldl (groupStep denoms) []

/-- Dataclass `MutationFrequency`.  The three real-valued fields are carried
in ten-thousandths (`frequency4 = 3000` means `frequency = 0.3000`). -/
structure MutationFrequency where
  gene_symbol : String
  cancer_type : String
  protein_change : String
  samples_with_mutation : Nat
  total_samples_tested : Nat
  frequency4 : Int
  ci_95_low4 : Int
  ci_95_high4 : Int
  source : String
  study_ids : List String
  quality_tier : DataQuality
deriving DecidableEq

/-- Constructor plus `__post_init__` (lines 51-57): the three integrity
assertions; an assertion failure is a `none` (the caller catches
`AssertionError` and drops the group). -/
def mkMutationFrequency (gene cancer protein : String) (count total : Nat)
    (freq4 lo4 hi4 : Int) (src : String) (sids : List String) (tier : DataQuality) :
    Option MutationFrequency :=
  if count ≤ total ∧ 0 ≤ freq4 ∧ freq4 ≤ 10 ^ 4 ∧ lo4 ≤ freq4 ∧ freq4 ≤ hi4 then
    some ⟨gene, cancer, protein, count, total, freq4, lo4, hi4, src, sids, tier⟩
  else none

/-- One row of the `known_hotspots` table (lines 68-73); `min_freq4` is the
documented minimum expected frequency in ten-thousandths. -/
structure HotspotEntry where
  gene : String
  variant : String
  min_freq4 : Int
  cancer_types : List String
deriving DecidableEq

/-- The `known_hotspots` table (lines 68-73). -/
def known_hotspots : List HotspotEntry :=
  [ ⟨"KRAS", "G12D", 500, ["Pancreatic", "Colorectal"]⟩
  , ⟨"BRAF", "V600E", 3000, ["Melanoma", "Thyroid"]⟩
  , ⟨"EGFR", "L858R", 1000, ["Lung Adenocarcinoma"]⟩
  , ⟨"TP53", "*", 2000, ["*"]⟩ ]

/-- Lines 276-281: the hotspot loop inside `_validate_frequency`.  Note that
the table's `cancer_types` lists are never consulted.  The comparison
`frequency < min_freq * 0.1` is `10 * frequency4 < min_freq4` in fixed
point. -/
def hotspotRejects (m : MutationFrequency) : Bool :=
  known_hotspots.any fun e =>
    (m.gene_symbol == e.gene) &&
      (e.variant == "*" || strContains m.protein_change e.variant) &&
      decide (10 * m.frequency4 < e.min_freq4)

/-- Embedding of `_validate_frequency` (lines 265-289): reject when
`frequency > 0.95`, when a known-hotspot row fires, or when the confidence
interval is wider than `0.5`; otherwise accept. -/
def validate_frequency (m : MutationFrequency) : Bool :=
  if 9500 < m.frequency4 then false
  else if hotspotRejects m then false
  else if 5000 < m.ci_95_high4 - m.ci_95_low4 then false
  else true

/-- Body of the per-group loop at lines 121-155: skip a zero denominator,
compute the Wilson interval, construct the record (`none` = the caught
`AssertionError` at line 153), and apply `_validate_frequency`. -/
def processGroup (kg : AggKey × GroupData) : Option MutationFrequency :=
  let total_samples := sumValues kg.2.study_denoms
  let mutation_count := kg.2.samples.length
  if total_samples = 0 then none
  else
    let w := calculate_wilson_ci mutation_count total_samples
    match mkMutationFrequency kg.1.1 kg.1.2.1 kg.1.2.2 mutation_count total_samples
        w.1 w.2.1 w.2.2 "cbioportal" kg.2.studies DataQuality.populationFrequency with
    | none => none
    | some mf => if validate_frequency mf then some mf else none

/-- Embedding of `ProductionAggregator.process_cbioportal_with_frequencies`
(lines 75-157): build the denominator map, group the mutations, then emit one
validated record per surviving group, in group order.  Rejections and
integrity errors only log-and-continue, which is why the function is total. -/
def collectGroup (results : List MutationFrequency) (kg : AggKey × GroupData) :
    List MutationFrequency :=
  match processGroup kg with
  | none => results
  | some mf => results ++ [mf]

def process_cbioportal_with_frequencies (mutations : List CBioMutation)
    (studies : List CBioStudy) : List MutationFrequency :=
  let study_denominators := buildDenoms studies
  let aggregated := buildGroups mutations study_denominators
  aggregated.foldl collectGroup []

/-! ### The denominator-less COSMIC catalog path -/

/-- Raw COSMIC mutation record — the fields `process_cosmic_as_catalog` reads. -/
structure CosmicMutation where
  gene_name : Option String
  protein_change : Option String
  sample_id : Option String
  primary_site : Option String
deriving DecidableEq

/-- Per-gene state of the catalog `defaultdict` (lines 166-171). -/
structure CosmicGroup where
  occurrences : Nat
  unique_samples : List String
  protein_variants : List String
  tissues : List String
deriving DecidableEq

/-- Initial catalog `defaultdict` value. -/
def emptyCosmicGroup : CosmicGroup := ⟨0, [], [], []⟩

/-- Output row of the catalog path (lines 193-203). -/
structure CosmicCatalogRecord where
  gene_symbol : String
  total_occurrences : Nat
  unique_samples : Nat
  variant_count : Nat
  tissue_count : Nat
  top_variants : List String
  source : String
  quality_tier : String
  note : String
deriving DecidableEq

/-- Output row built per catalog gene (lines 193-203): tagged
`occurrence_count`, no frequency field at all. -/
def catalogRow (kg : String × CosmicGroup) : CosmicCatalogRecord :=
  { gene_symbol := kg.1
    total_occurrences := kg.2.occurrences
    unique_samples := kg.2.unique_samples.length
    variant_count := kg.2.protein_variants.length
    tissue_count := kg.2.tissues.length
    top_variants := kg.2.protein_variants.take 5
    source := "cosmic"
    quality_tier := DataQuality.occurrenceCount.val
    note := "Catalog data only - no frequency calculation possible without denominators" }

/-- Embedding of `ProductionAggregator.process_cosmic_as_catalog`
(lines 159-205): group by gene, count occurrences and distinct
samples/variants/tissues, and emit rows tagged `occurrence_count` with no
frequency field at all. -/
def process_cosmic_as_catalog (mutations : List CosmicMutation) :
    List CosmicCatalogRecord :=
  let catalog := mutations.foldl
    (fun cat mu =>
      let gene := mu.gene_name.getD "Unknown"
      let protein := mu.protein_change.getD ""
      if gene = "" ∨ gene = "Unknown" then cat
      else
        updateAssoc gene emptyCosmicGroup
          (fun g =>
            { occurrences := g.occurrences + 1
              unique_samples :=
                match mu.sample_id with
                | some sid => if sid ≠ "" then addSet sid g.unique_samples else g.unique_samples
                | none => g.unique_samples
              protein_variants :=
                if protein ≠ "" then addSet protein g.protein_variants else g.protein_variants
              tissues :=
                match mu.primary_site with
                | some ps => if ps ≠ "" then addSet ps g.tissues else g.tissues
                | none => g.tissues })
          cat)
    []
  catalog.foldl (fun results kg => results ++ [catalogRow kg]) []

/-! ### The variant harmonizer (`silver/transformers/variant_harmonizer.py`)

Python regexes are embedded as explicit char-list matchers.  Every regex in
the source anchors a greedy `\d+` against a following non-digit, so greedy
`takeWhile`/`dropWhile` reproduces the regex semantics with no backtracking.
-/

/-- Python `str.strip()`. -/
def pyStrip (s : String) : String :=
  String.mk (((s.toList.dropWhile Char.isWhitespace).reverse.dropWhile
    Char.isWhitespace).reverse)

/-- Numeric value of a digit run (`int(match.group(...))`). -/
def digitsToNat (ds : List Char) : Nat := ds.foldl (fun a c => 10 * a + (c.toNat - 48)) 0

/-- Embedding of `_is_standard_format`: the regex `^p\.[A-Z]\d+[A-Z*]$`. -/
def is_standard_format (s : String) : Bool :=
  match s.toList with
  | a :: b :: c :: rest =>
    a == 'p' && b == '.' && c.isUpper &&
      !(rest.takeWhile Char.isDigit).isEmpty &&
      (match rest.dropWhile Char.isDigit with
       | [x] => x.isUpper || x == '*'
       | _ => false)
  | _ => false

/-- The `AA_3TO1` class table. -/
def AA_3TO1 : List (String × String) :=
  [ ("Ala", "A"), ("Arg", "R"), ("Asn", "N"), ("Asp", "D")
  , ("Cys", "C"), ("Gln", "Q"), ("Glu", "E"), ("Gly", "G")
  , ("His", "H"), ("Ile", "I"), ("Leu", "L"), ("Lys", "K")
  , ("Met", "M"), ("Phe", "F"), ("Pro", "P"), ("Ser", "S")
  , ("Thr", "T"), ("Trp", "W"), ("Tyr", "Y"), ("Val", "V")
  , ("Ter", "*"), ("Stop", "*") ]

/-- Python `AA_3TO1.get(x, x)`. -/
def aa3to1 (s : String) : String := (lookupAssoc s AA_3TO1).getD s

/-- Pattern 1: `re.match(r'^([A-Z])(\d+)([A-Z*])$', ...)`. -/
def matchP1 (l : List Char) : Option (String × Nat × String) :=
  match l with
  | r :: rest =>
    if r.isUpper then
      if !(rest.takeWhile Char.isDigit).isEmpty then
        match rest.dropWhile Char.isDigit with
        | [a] =>
          if a.isUpper || a == '*' then
            some (String.mk [r], digitsToNat (rest.takeWhile Char.isDigit), String.mk [a])
          else none
        | _ => none
      else none
    else none
  | [] => none

/-- Pattern 2: `re.match(r'^([A-Z][a-z]{2})(\d+)([A-Z][a-z]{2}|\*)$', ...)`. -/
def matchP2 (l : List Char) : Option (String × Nat × String) :=
  match l with
  | c1 :: c2 :: c3 :: rest =>
    if c1.isUpper && c2.isLower && c3.isLower then
      if !(rest.takeWhile Char.isDigit).isEmpty then
        match rest.dropWhile Char.isDigit with
        | [a1, a2, a3] =>
          if a1.isUpper && a2.isLower && a3.isLower then
            some (String.mk [c1, c2, c3], digitsToNat (rest.takeWhile Char.isDigit),
              String.mk [a1, a2, a3])
          else none
        | ['*'] =>
          some (String.mk [c1, c2, c3], digitsToNat (rest.takeWhile Char.isDigit), "*")
        | _ => none
      else none
    else none
  | _ => none

/-- Pattern 3: `re.match(r'^(\d+)([A-Z])[\/>]([A-Z*])$', ...)`. -/
def matchP3 (l : List Char) : Option (String × Nat × String) :=
  if !(l.takeWhile Char.isDigit).isEmpty then
    match l.dropWhile Char.isDigit with
    | [b, sl, a] =>
      if b.isUpper && (sl == '/' || sl == '>') && (a.isUpper || a == '*') then
        some (String.mk [b], digitsToNat (l.takeWhile Char.isDigit), String.mk [a])
      else none
    | _ => none
  else none

/-- The search `re.search(r'([A-Z])?(\d+)', ...)` used by the fs/del/dup
branches: leftmost match, preferring a one-letter group when a digit follows. -/
def searchOptUpperDigits : List Char → Option (Option Char × Nat)
  | [] => none
  | c :: rest =>
    if c.isUpper then
      if !(rest.takeWhile Char.isDigit).isEmpty then
        some (some c, digitsToNat (rest.takeWhile Char.isDigit))
      else searchOptUpperDigits rest
    else if c.isDigit then
      some (none, digitsToNat ((c :: rest).takeWhile Char.isDigit))
    else searchOptUpperDigits rest

/-- The search `re.search(r'(\d+)', ...)` used by the ins branch. -/
def searchDigits : List Char → Option Nat
  | [] => none
  | c :: rest =>
    if c.isDigit then some (digitsToNat ((c :: rest).takeWhile Char.isDigit))
    else searchDigits rest

/-- Pattern 8: `re.match(r'^([A-Z])(\d+)_([A-Z])(\d+)delins([A-Z]+)$', ...)`.
Unreachable in practice: a string matching it contains "del", so Pattern 5
fires first; embedded for faithfulness. -/
def matchP8 (l : List Char) : Option (String × Nat × String) :=
  match l with
  | r :: rest =>
    if r.isUpper then
      if !(rest.takeWhile Char.isDigit).isEmpty then
        match rest.dropWhile Char.isDigit with
        | '_' :: c2 :: rest2 =>
          if c2.isUpper then
            if !(rest2.takeWhile Char.isDigit).isEmpty then
              if ("delins".toList).isPrefixOf (rest2.dropWhile Char.isDigit) then
                if !((rest2.dropWhile Char.isDigit).drop 6).isEmpty &&
                    ((rest2.dropWhile Char.isDigit).drop 6).all Char.isUpper then
                  some (String.mk [r], digitsToNat (rest.takeWhile Char.isDigit),
                    String.mk ((rest2.dropWhile Char.isDigit).drop 6))
                else none
              else none
            else none
          else none
        | _ => none
      else none
    else none
  | [] => none

/-- Python `s.lower()` (ASCII). -/
def lowerStr (s : String) : String := String.mk (s.toList.map Char.toLower)

/-- Embedding of `_parse_protein_change`: strip a `p.` prefix, then try the
patterns in source order.  The fs/del/ins/dup branches are sequential `if`
statements, so a branch whose inner search fails falls through to the next. -/
def parse_protein_change (pc : String) : Option (String × Nat × String) :=
  let cleaned :=
    match pc.toList with
    | 'p' :: '.' :: rest => String.mk rest
    | l => String.mk l
  let l := cleaned.toList
  match matchP1 l with
  | some r => some r
  | none =>
  match matchP2 l with
  | some (r3, p, a3) => some (aa3to1 r3, p, aa3to1 a3)
  | none =>
  match matchP3 l with
  | some r => some r
  | none =>
  match
    (if strContains (lowerStr cleaned) "fs" then
      match searchOptUpperDigits l with
      | some (ro, p) => some ((ro.map fun c => String.mk [c]).getD "X", p, "fs")
      | none => none
    else none) with
  | some r => some r
  | none =>
  match
    (if strContains (lowerStr cleaned) "del" then
      match searchOptUpperDigits l with
      | some (ro, p) => some ((ro.map fun c => String.mk [c]).getD "X", p, "del")
      | none => none
    else none) with
  | some r => some r
  | none =>
  match
    (if strContains (lowerStr cleaned) "ins" then
      match searchDigits l with
      | some p => some ("X", p, "ins")
      | none => none
    else none) with
  | some r => some r
  | none =>
  match
    (if strContains (lowerStr cleaned) "dup" then
      match searchOptUpperDigits l with
      | some (ro, p) => some ((ro.map fun c => String.mk [c]).getD "X", p, "dup")
      | none => none
    else none) with
  | some r => some r
  | none => matchP8 l

/-- Embedding of `_format_protein_change`: both source branches produce the
same f-string `p.{ref}{position}{alt}`. -/
def format_protein_change (ref : String) (position : Nat) (alt : String) : String :=
  "p." ++ ref ++ Nat.repr position ++ alt

/-- Embedding of `VariantHarmonizer.harmonize_protein_change`: empty input
maps to the empty string; already-standard input is returned as stripped; a
parsed input is reformatted; otherwise the stripped original is returned
unchanged (the deliberate lossy fallback — the function never throws). -/
def harmonize_protein_change (protein_change : String) : String :=
  if protein_change = "" then ""
  else
    let cleaned := pyStrip protein_change
    if is_standard_format cleaned then cleaned
    else
      match parse_protein_change cleaned with
      | some (r, p, a) => format_protein_change r p a
      | none => cleaned

/-! ### The gold-layer sample-count extractor
(`gold/aggregators/mutation_aggregator_fixed.py`, lines 64-80) -/

/-- Raw study-info record as read by
`MutationAggregator._extract_study_sample_counts`. -/
structure GoldStudy where
  studyId : Option String
  cancer_study_identifier : Option String
  numberOfSamples : Option Nat
  allSampleCount : Option Nat
  cnaSampleCount : Option Nat
  sequencedSampleCount : Option Nat
  cancerTypeName : Option String
  name : Option String
deriving DecidableEq

/-- Python `a or b or c or ... or default` over optional counts: the first
present non-zero value, else the default. -/
def firstTruthy (l : List (Option Nat)) (dflt : Nat) : Nat :=
  match l with
  | [] => dflt
  | x :: rest =>
    match x with
    | some n => if n ≠ 0 then n else firstTruthy rest dflt
    | none => firstTruthy rest dflt

/-- Line 69-75 of the gold aggregator: the field-priority chain
`numberOfSamples or allSampleCount or cnaSampleCount or sequencedSampleCount
or 100`. -/
def goldSampleCount (st : GoldStudy) : Nat :=
  firstTruthy [st.numberOfSamples, st.allSampleCount, st.cnaSampleCount,
    st.sequencedSampleCount] 100

/-- Embedding of `MutationAggregator._extract_study_sample_counts`
(lines 64-80): builds `self.study_sample_counts`, keyed by the cancer-type
label (`study['cancerType']['name']`, falling back to `name` then to the
study id).  Note the `100  # Default if not found` fallback. -/
def extract_study_sample_counts (studies : List GoldStudy) :
    List (Option String × Nat) :=
  studies.foldl
    (fun m st =>
      let study_id :=
        match st.studyId with
        | some s => some s
        | none => st.cancer_study_identifier
      let cancer_type : Option String :=
        match st.cancerTypeName with
        | some nm => some nm
        | none =>
          match st.name with
          | some nm => some nm
          | none => study_id
      upsert cancer_type (goldSampleCount st) m)
    []

/-! ### Auxiliary predicates used by the claim statements -/

/-- Denominator that the study map assigns to a study id (0 when absent). -/
def denomTotal (denoms : List (String × Nat × String)) (sid : String) : Nat :=
  match lookupAssoc sid denoms with
  | some info => info.1
  | none => 0

/-- Invariant of a group built by `buildGroups`: its per-study denominator
dict is exactly the denominator map restricted to its (duplicate-free) set of
contributing studies, each of which is resolved. -/
def GroupInv (denoms : List (String × Nat × String)) (g : GroupData) : Prop :=
  g.study_denoms = g.studies.map (fun sid => (sid, denomTotal denoms sid)) ∧
  g.studies.Nodup ∧
  ∀ sid ∈ g.studies, (lookupAssoc sid denoms).isSome = true

/-- A mutation whose study id resolves in the denominator map. -/
def mutResolved (denoms : List (String × Nat × String)) (mu : CBioMutation) : Bool :=
  match mu.studyId with
  | some sid => (lookupAssoc sid denoms).isSome
  | none => false

/-- How an entry of the production denominator map traces back to a study
record: truthy id, positive count, the sequenced-over-all field priority. -/
def denomEntryFrom (st : CBioStudy) (p : String × Nat × String) : Prop :=
  st.studyId = some p.1 ∧ p.1 ≠ "" ∧ 0 < studySampleCount st ∧
    p.2 = (studySampleCount st, st.cancerTypeName.getD "Unknown")

/-! ### Concrete scenario data used by the claims -/

/-- One study `skcm_study` with sequenced-sample denominator 450,
cancer type Melanoma. -/
def skcmStudies : List CBioStudy :=
  [⟨some "skcm_study", some 450, none, some "Melanoma"⟩]

/-- Three standardized BRAF V600E mutations with distinct sample ids, all
from `skcm_study`. -/
def brafMutations : List CBioMutation :=
  [ ⟨some "skcm_study", some "BRAF", some "V600E", some "S1"⟩
  , ⟨some "skcm_study", some "BRAF", some "V600E", some "S2"⟩
  , ⟨some "skcm_study", some "BRAF", some "V600E", some "S3"⟩ ]

/-- The same three mutations on NRAS (a gene with no hotspot-table row). -/
def nrasMutations : List CBioMutation :=
  [ ⟨some "skcm_study", some "NRAS", some "V600E", some "S1"⟩
  , ⟨some "skcm_study", some "NRAS", some "V600E", some "S2"⟩
  , ⟨some "skcm_study", some "NRAS", some "V600E", some "S3"⟩ ]

/-- The aggregation key the BRAF scenario produces. -/
def brafKey : AggKey := ("BRAF", "Melanoma", "V600E")

/-- The group state the BRAF scenario produces: 3 distinct samples, one
study, denominator 450 counted once. -/
def brafGroup : GroupData :=
  ⟨["skcm_study:S1", "skcm_study:S2", "skcm_study:S3"], ["skcm_study"], [("skcm_study", 450)]⟩

/-- The record the BRAF group yields before validation:
3/450 = 0.0067, Wilson CI [0.0023, 0.0194]. -/
def brafRecord : MutationFrequency :=
  ⟨"BRAF", "Melanoma", "V600E", 3, 450, 67, 23, 194, "cbioportal", ["skcm_study"],
    DataQuality.populationFrequency⟩

/-- The analogous NRAS record, which survives validation. -/
def nrasRecord : MutationFrequency :=
  ⟨"NRAS", "Melanoma", "V600E", 3, 450, 67, 23, 194, "cbioportal", ["skcm_study"],
    DataQuality.populationFrequency⟩

/-- One study with denominator 500 (cancer type Colon). -/
def study500 : List CBioStudy :=
  [⟨some "colon_study", some 500, none, some "Colon"⟩]

/-- Fifty mutation rows of the same variant, all from the single study with
denominator 500, with distinct sample ids P0..P49. -/
def fiftyMutations : List CBioMutation :=
  (List.range 50).map fun i =>
    ⟨some "colon_study", some "PIK3CA", some "H1047R", some ("P" ++ Nat.repr i)⟩

/-- The single record the fifty-row scenario yields:
`total_samples_tested` is 500, not 25000. -/
def fiftyRecord : MutationFrequency :=
  ⟨"PIK3CA", "Colon", "H1047R", 50, 500, 1000, 767, 1294, "cbioportal", ["colon_study"],
    DataQuality.populationFrequency⟩

/-- Two studies: the Melanoma one and a tiny one with denominator 1. -/
def mixStudies : List CBioStudy :=
  [ ⟨some "skcm_study", some 450, none, some "Melanoma"⟩
  , ⟨some "tiny_study", some 1, none, some "Colon"⟩ ]

/-- Two KRAS rows from the tiny study (2 samples > denominator 1, so the
record construction's integrity assertion fails) followed by the three NRAS
rows (a healthy group). -/
def mixMutations : List CBioMutation :=
  [ ⟨some "tiny_study", some "KRAS", some "G12C", some "A1"⟩
  , ⟨some "tiny_study", some "KRAS", some "G12C", some "A2"⟩
  , ⟨some "skcm_study", some "NRAS", some "V600E", some "S1"⟩
  , ⟨some "skcm_study", some "NRAS", some "V600E", some "S2"⟩
  , ⟨some "skcm_study", some "NRAS", some "V600E", some "S3"⟩ ]

/-- Key of the failing KRAS group. -/
def krasKey : AggKey := ("KRAS", "Colon", "G12C")

/-- State of the failing KRAS group: 2 samples but total denominator 1. -/
def krasGroup : GroupData :=
  ⟨["tiny_study:A1", "tiny_study:A2"], ["tiny_study"], [("tiny_study", 1)]⟩

/-- A synthetic record with frequency 0.99 (all internal invariants hold). -/
def r99 : MutationFrequency :=
  ⟨"GENE1", "CancerA", "X100Y", 99, 100, 9900, 9800, 9950, "cbioportal", ["s1"],
    DataQuality.populationFrequency⟩

/-- A BRAF V600E record for cancer type Lung — a cancer type the hotspot
table does not document for BRAF — with frequency 0.01, well below 10% of
the table's 0.30 minimum. -/
def lungRecord : MutationFrequency :=
  ⟨"BRAF", "Lung", "V600E", 1, 100, 100, 50, 200, "cbioportal", ["s1"],
    DataQuality.populationFrequency⟩

/-- A gold-layer study carrying both `sequencedSampleCount = 50` and
`allSampleCount = 200` (and no `numberOfSamples`). -/
def goldStudyA : GoldStudy :=
  ⟨some "study_a", none, none, some 200, none, some 50, some "TypeA", none⟩

/-- A gold-layer study with every sample-count field missing. -/
def goldStudyB : GoldStudy :=
  ⟨some "study_b", none, none, none, none, none, some "TypeB", none⟩

/-! ## Theorems -/

theorem sqrtAux_isSqrt : ∀ (f n lo hi : Nat), lo ≤ hi → lo * lo ≤ n →
    n < (hi + 1) * (hi + 1) → hi - lo ≤ f →
    sqrtAux f n lo hi * sqrtAux f n lo hi ≤ n ∧
      n < (sqrtAux f n lo hi + 1) * (sqrtAux f n lo hi + 1) := by
  intro f
  induction f with
  | zero =>
    intro n lo hi h1 h2 h3 h4
    have hlh : lo = hi := by omega
    subst hlh
    exact ⟨h2, h3⟩
  | succ f ih =>
    intro n lo hi h1 h2 h3 h4
    simp only [sqrtAux]
    by_cases hle : hi ≤ lo
    · rw [if_pos hle]
      have hlh : lo = hi := by omega
      subst hlh
      exact ⟨h2, h3⟩
    · rw [if_neg hle]
      have hlt : lo < hi := by omega
      have hmid1 : lo < (lo + hi + 1) / 2 := by omega
      have hmid2 : (lo + hi + 1) / 2 ≤ hi := by omega
      by_cases hm : ((lo + hi + 1) / 2) * ((lo + hi + 1) / 2) ≤ n
      · rw [if_pos hm]
        exact ih n ((lo + hi + 1) / 2) hi hmid2 hm h3 (by omega)
      · rw [if_neg hm]
        have hmn : n < ((lo + hi + 1) / 2) * ((lo + hi + 1) / 2) := by omega
        have hstep : ((lo + hi + 1) / 2 - 1) + 1 = (lo + hi + 1) / 2 := by omega
        have := ih n lo ((lo + hi + 1) / 2 - 1) (by omega) h2 (by rw [hstep]; exact hmn)
          (by omega)
        exact this

theorem sqrtFloor_sq_le (n : Nat) : sqrtFloor n * sqrtFloor n ≤ n := by
  have h3 : n < (n + 1) * (n + 1) := by nlinarith
  exact (sqrtAux_isSqrt n n 0 n (Nat.zero_le n) (by simp) h3 (by omega)).1

theorem lt_sqrtFloor_succ_sq (n : Nat) : n < (sqrtFloor n + 1) * (sqrtFloor n + 1) := by
  have h3 : n < (n + 1) * (n + 1) := by nlinarith
  exact (sqrtAux_isSqrt n n 0 n (Nat.zero_le n) (by simp) h3 (by omega)).2

/-! ### Bridging the integer square root to `Real.sqrt` -/

theorem sqrtFloor_le_sqrt (n : Nat) : (sqrtFloor n : ℝ) ≤ Real.sqrt n := by
  refine (Real.le_sqrt (by positivity) (by positivity)).2 ?_
  have := sqrtFloor_sq_le n
  have hc : ((sqrtFloor n * sqrtFloor n : Nat) : ℝ) ≤ (n : ℝ) := by exact_mod_cast this
  calc (sqrtFloor n : ℝ) ^ 2 = ((sqrtFloor n * sqrtFloor n : Nat) : ℝ) := by push_cast; ring
  _ ≤ (n : ℝ) := hc

theorem sqrt_lt_sqrtFloor_succ (n : Nat) : Real.sqrt n < (sqrtFloor n : ℝ) + 1 := by
  have hpos : (0 : ℝ) < (sqrtFloor n : ℝ) + 1 := by positivity
  refine (Real.sqrt_lt' hpos).2 ?_
  have := lt_sqrtFloor_succ_sq n
  have hc : (n : ℝ) < ((( sqrtFloor n + 1) * (sqrtFloor n + 1) : Nat) : ℝ) := by exact_mod_cast this
  calc (n : ℝ) < (((sqrtFloor n + 1) * (sqrtFloor n + 1) : Nat) : ℝ) := hc
  _ = ((sqrtFloor n : ℝ) + 1) ^ 2 := by push_cast; ring

theorem sqrt_le_ceilSqrt (n : Nat) : Real.sqrt n ≤ (ceilSqrt n : ℝ) := by
  unfold ceilSqrt
  by_cases h : sqrtFloor n * sqrtFloor n = n
  · rw [if_pos h]
    have hr : (n : ℝ) = (sqrtFloor n : ℝ) * (sqrtFloor n : ℝ) := by exact_mod_cast h.symm
    rw [hr, Real.sqrt_mul_self (by positivity)]
  · rw [if_neg h]
    exact le_of_lt (by exact_mod_cast sqrt_lt_sqrtFloor_succ n)

theorem ceilSqrt_lt_sqrt_add_one (n : Nat) : (ceilSqrt n : ℝ) < Real.sqrt n + 1 := by
  unfold ceilSqrt
  by_cases h : sqrtFloor n * sqrtFloor n = n
  · rw [if_pos h]
    have hr : (n : ℝ) = (sqrtFloor n : ℝ) * (sqrtFloor n : ℝ) := by exact_mod_cast h.symm
    rw [hr, Real.sqrt_mul_self (by positivity)]
    linarith
  · rw [if_neg h]
    have hlt : sqrtFloor n * sqrtFloor n < n := lt_of_le_of_ne (sqrtFloor_sq_le n) h
    have hsf : (sqrtFloor n : ℝ) < Real.sqrt n := by
      refine lt_of_pow_lt_pow_left₀ 2 (Real.sqrt_nonneg _) ?_
      rw [Real.sq_sqrt (by positivity)]
      have hc : ((sqrtFloor n * sqrtFloor n : Nat) : ℝ) < (n : ℝ) := by exact_mod_cast hlt
      calc (sqrtFloor n : ℝ) ^ 2 = ((sqrtFloor n * sqrtFloor n : Nat) : ℝ) := by push_cast; ring
      _ < (n : ℝ) := hc
    push_cast
    linarith

theorem floor_sqrt_nat (n : Nat) : ⌊Real.sqrt n⌋ = (sqrtFloor n : ℤ) := by
  rw [Int.floor_eq_iff]
  constructor
  · exact_mod_cast sqrtFloor_le_sqrt n
  · push_cast
    exact sqrt_lt_sqrtFloor_succ n

theorem ceil_sqrt_nat (n : Nat) : ⌈Real.sqrt n⌉ = (ceilSqrt n : ℤ) := by
  rw [Int.ceil_eq_iff]
  constructor
  · push_cast
    linarith [ceilSqrt_lt_sqrt_add_one n]
  · exact_mod_cast sqrt_le_ceilSqrt n

theorem floor_div_intCast (r : ℝ) (m : ℤ) (hm : 0 < m) :
    ⌊r / (m : ℝ)⌋ = ⌊r⌋ / m := by
  have hmR : (0 : ℝ) < (m : ℝ) := by exact_mod_cast hm
  have hdm : m * (⌊r⌋ / m) + ⌊r⌋ % m = ⌊r⌋ := Int.ediv_add_emod ⌊r⌋ m
  have hrem0 : 0 ≤ ⌊r⌋ % m := Int.emod_nonneg ⌊r⌋ hm.ne.symm
  have hremlt : ⌊r⌋ % m < m := Int.emod_lt_of_pos ⌊r⌋ hm
  have hrem1 : ⌊r⌋ % m + 1 ≤ m := Int.lt_iff_add_one_le.1 hremlt
  have hfl : (⌊r⌋ : ℝ) ≤ r := Int.floor_le r
  have hfu : r < (⌊r⌋ : ℝ) + 1 := Int.lt_floor_add_one r
  have hdmR : (m : ℝ) * ((⌊r⌋ / m : ℤ) : ℝ) + ((⌊r⌋ % m : ℤ) : ℝ) = (⌊r⌋ : ℝ) := by
    exact_mod_cast congrArg (fun z : ℤ => (z : ℝ)) hdm
  have hrem0R : (0 : ℝ) ≤ ((⌊r⌋ % m : ℤ) : ℝ) := by exact_mod_cast hrem0
  have hrem1R : ((⌊r⌋ % m : ℤ) : ℝ) + 1 ≤ (m : ℝ) := by exact_mod_cast hrem1
  rw [Int.floor_eq_iff]
  constructor
  · rw [le_div_iff₀ hmR]
    nlinarith
  · rw [div_lt_iff₀ hmR]
    nlinarith

theorem sqrt_div_eq (u v : ℤ) (hu : 0 ≤ u) (hv : 0 < v) (b : ℤ) (hb : 0 < b) :
    Real.sqrt ((u : ℝ) / (v : ℝ)) =
      Real.sqrt (((b * b * u * v).toNat : ℕ) : ℝ) / ((b : ℝ) * (v : ℝ)) := by
  have hvR : (0 : ℝ) < (v : ℝ) := by exact_mod_cast hv
  have hbR : (0 : ℝ) < (b : ℝ) := by exact_mod_cast hb
  have huR : (0 : ℝ) ≤ (u : ℝ) := by exact_mod_cast hu
  have hN : ((b * b * u * v : ℤ) : ℝ) = ((b : ℝ) * (b : ℝ) * (u : ℝ) * (v : ℝ)) := by push_cast; ring
  have hNnn : 0 ≤ b * b * u * v :=
    mul_nonneg (mul_nonneg (mul_self_nonneg b) hu) hv.le
  have hcast : (((b * b * u * v).toNat : ℕ) : ℝ) = ((b * b * u * v : ℤ) : ℝ) := by
    exact_mod_cast congrArg (fun z : ℤ => (z : ℝ)) (Int.toNat_of_nonneg hNnn)
  rw [hcast, hN]
  have key : (u : ℝ) / (v : ℝ) =
      ((b : ℝ) * (b : ℝ) * (u : ℝ) * (v : ℝ)) / ((b : ℝ) * (v : ℝ)) ^ 2 := by
    field_simp
    ring
  rw [key, Real.sqrt_div (by positivity), Real.sqrt_sq (by positivity)]

theorem floorQuadAdd_eq (a b u v : ℤ) (hb : 0 < b) (hu : 0 ≤ u) (hv : 0 < v) :
    floorQuadAdd a b u v = ⌊(a : ℝ) / (b : ℝ) + Real.sqrt ((u : ℝ) / (v : ℝ))⌋ := by
  have hbR : (0 : ℝ) < (b : ℝ) := by exact_mod_cast hb
  have hvR : (0 : ℝ) < (v : ℝ) := by exact_mod_cast hv
  have hx : (a : ℝ) / (b : ℝ) + Real.sqrt ((u : ℝ) / (v : ℝ)) =
      (((a * v : ℤ) : ℝ) + Real.sqrt (((b * b * u * v).toNat : ℕ) : ℝ)) / ((b * v : ℤ) : ℝ) := by
    rw [sqrt_div_eq u v hu hv b hb]
    push_cast
    field_simp
    ring
  rw [hx, floor_div_intCast _ (b * v) (by positivity)]
  have hfl : ⌊((a * v : ℤ) : ℝ) + Real.sqrt (((b * b * u * v).toNat : ℕ) : ℝ)⌋ =
      a * v + (sqrtFloor (b * b * u * v).toNat : ℤ) := by
    rw [add_comm ((a * v : ℤ) : ℝ), Int.floor_add_int, floor_sqrt_nat]
    ring
  rw [hfl, floorQuadAdd]

theorem floorQuadSub_eq (a b u v : ℤ) (hb : 0 < b) (hu : 0 ≤ u) (hv : 0 < v) :
    floorQuadSub a b u v = ⌊(a : ℝ) / (b : ℝ) - Real.sqrt ((u : ℝ) / (v : ℝ))⌋ := by
  have hx : (a : ℝ) / (b : ℝ) - Real.sqrt ((u : ℝ) / (v : ℝ)) =
      (((a * v : ℤ) : ℝ) - Real.sqrt (((b * b * u * v).toNat : ℕ) : ℝ)) / ((b * v : ℤ) : ℝ) := by
    rw [sqrt_div_eq u v hu hv b hb]
    push_cast
    have hbR : (0 : ℝ) < (b : ℝ) := by exact_mod_cast hb
    have hvR : (0 : ℝ) < (v : ℝ) := by exact_mod_cast hv
    field_simp
    ring
  rw [hx, floor_div_intCast _ (b * v) (by positivity)]
  have hfl : ⌊((a * v : ℤ) : ℝ) - Real.sqrt (((b * b * u * v).toNat : ℕ) : ℝ)⌋ =
      a * v - (ceilSqrt (b * b * u * v).toNat : ℤ) := by
    rw [sub_eq_add_neg, add_comm, Int.floor_add_int, Int.floor_neg, ceil_sqrt_nat]
    ring
  rw [hfl, floorQuadSub]

theorem wilson_center_den_pos (t : ℕ) : (0 : ℤ) < wilson_center_den t := by
  unfold wilson_center_den
  omega

theorem wilson_center_num_pos (s : ℕ) : (0 : ℤ) < wilson_center_num s := by
  unfold wilson_center_num
  omega

theorem wilson_margin_sq_den_pos (t : ℕ) (ht : 0 < t) : (0 : ℤ) < wilson_margin_sq_den t := by
  have htZ : (0 : ℤ) < (t : ℤ) := by exact_mod_cast ht
  have h1 : (0 : ℤ) < 625 * (t : ℤ) + 2401 := by omega
  unfold wilson_margin_sq_den
  exact mul_pos (mul_pos (by norm_num) htZ) (pow_pos h1 2)

theorem wilson_margin_sq_num_nonneg (s t : ℕ) (hst : s ≤ t) :
    (0 : ℤ) ≤ wilson_margin_sq_num s t := by
  have h1 : (0 : ℤ) ≤ (s : ℤ) := by positivity
  have h2 : (0 : ℤ) ≤ (t : ℤ) - (s : ℤ) := by
    have : (s : ℤ) ≤ (t : ℤ) := by exact_mod_cast hst
    omega
  have h3 : (0 : ℤ) ≤ 2500 * (s : ℤ) * ((t : ℤ) - (s : ℤ)) :=
    mul_nonneg (mul_nonneg (by norm_num) h1) h2
  have h4 : (0 : ℤ) ≤ (t : ℤ) := by positivity
  unfold wilson_margin_sq_num
  nlinarith

theorem wilson_center_eq (s t : ℕ) (ht : 0 < t) :
    ((s : ℝ) / (t : ℝ) + (1.96 : ℝ) ^ 2 / (2 * (t : ℝ))) / (1 + (1.96 : ℝ) ^ 2 / (t : ℝ)) =
      ((wilson_center_num s : ℤ) : ℝ) / ((wilson_center_den t : ℤ) : ℝ) := by
  have hT : (0 : ℝ) < (t : ℝ) := by exact_mod_cast ht
  have hz : (1.96 : ℝ) ^ 2 = 2401 / 625 := by norm_num
  rw [hz, wilson_center_num, wilson_center_den]
  have hd : (0 : ℝ) < 1 + 2401 / 625 / (t : ℝ) := by positivity
  have h2 : (0 : ℝ) < 625 * (t : ℝ) + 2401 := by positivity
  push_cast
  rw [div_eq_div_iff (by positivity) (by positivity)]
  field_simp
  ring

theorem wilson_radicand_nonneg (s t : ℕ) (hst : s ≤ t) (ht : 0 < t) :
    (0 : ℝ) ≤ (s : ℝ) / (t : ℝ) * (1 - (s : ℝ) / (t : ℝ)) / (t : ℝ) +
      (1.96 : ℝ) ^ 2 / (4 * (t : ℝ) ^ 2) := by
  have hT : (0 : ℝ) < (t : ℝ) := by exact_mod_cast ht
  have hST : (s : ℝ) ≤ (t : ℝ) := by exact_mod_cast hst
  have hp0 : (0 : ℝ) ≤ (s : ℝ) / (t : ℝ) := by positivity
  have hp1 : (s : ℝ) / (t : ℝ) ≤ 1 := by
    rw [div_le_one hT]
    exact hST
  have h1 : (0 : ℝ) ≤ (s : ℝ) / (t : ℝ) * (1 - (s : ℝ) / (t : ℝ)) / (t : ℝ) :=
    div_nonneg (mul_nonneg hp0 (by linarith)) hT.le
  have h2 : (0 : ℝ) ≤ (1.96 : ℝ) ^ 2 / (4 * (t : ℝ) ^ 2) := by positivity
  linarith

theorem wilson_margin_eq (s t : ℕ) (hst : s ≤ t) (ht : 0 < t) :
    (1.96 : ℝ) *
        Real.sqrt ((s : ℝ) / (t : ℝ) * (1 - (s : ℝ) / (t : ℝ)) / (t : ℝ) +
          (1.96 : ℝ) ^ 2 / (4 * (t : ℝ) ^ 2)) /
        (1 + (1.96 : ℝ) ^ 2 / (t : ℝ)) =
      Real.sqrt (((wilson_margin_sq_num s t : ℤ) : ℝ) / ((wilson_margin_sq_den t : ℤ) : ℝ)) := by
  have hT : (0 : ℝ) < (t : ℝ) := by exact_mod_cast ht
  have hR := wilson_radicand_nonneg s t hst ht
  have hd : (0 : ℝ) < 1 + (1.96 : ℝ) ^ 2 / (t : ℝ) := by positivity
  have hz196 : (0 : ℝ) < (1.96 : ℝ) := by norm_num
  have hsq : ((wilson_margin_sq_num s t : ℤ) : ℝ) / ((wilson_margin_sq_den t : ℤ) : ℝ) =
      ((1.96 : ℝ) *
          Real.sqrt ((s : ℝ) / (t : ℝ) * (1 - (s : ℝ) / (t : ℝ)) / (t : ℝ) +
            (1.96 : ℝ) ^ 2 / (4 * (t : ℝ) ^ 2)) /
          (1 + (1.96 : ℝ) ^ 2 / (t : ℝ))) ^ 2 := by
    rw [div_pow, mul_pow, Real.sq_sqrt hR, wilson_margin_sq_num, wilson_margin_sq_den]
    have hz : (1.96 : ℝ) ^ 2 = 2401 / 625 := by norm_num
    rw [hz]
    have h2 : (0 : ℝ) < 625 * (t : ℝ) + 2401 := by positivity
    have h3 : (0 : ℝ) < 1 + 2401 / 625 / (t : ℝ) := by positivity
    push_cast
    rw [div_eq_div_iff (by positivity) (by positivity)]
    field_simp
    ring
  rw [hsq, Real.sqrt_sq (by positivity)]

theorem wilson_freq4_models (s t : ℕ) (ht : 0 < t) :
    ((wilson_freq4 s t : ℤ) : ℝ) / 10 ^ 4 = round4R ((s : ℝ) / (t : ℝ)) := by
  have hT : (0 : ℝ) < (t : ℝ) := by exact_mod_cast ht
  have hkey : (s : ℝ) / (t : ℝ) * 10 ^ 4 + 1 / 2 =
      ((2 * 10 ^ 4 * (s : ℤ) + (t : ℤ) : ℤ) : ℝ) / ((2 * (t : ℤ) : ℤ) : ℝ) := by
    push_cast
    field_simp
    ring
  rw [round4R, hkey, floor_div_intCast _ _ (by omega), Int.floor_intCast, wilson_freq4]

theorem wilson_lo4_models (s t : ℕ) (hst : s ≤ t) (ht : 0 < t) :
    ((wilson_lo4 s t : ℤ) : ℝ) / 10 ^ 4 =
      round4R (max 0 (((wilson_center_num s : ℤ) : ℝ) / ((wilson_center_den t : ℤ) : ℝ) -
        Real.sqrt (((wilson_margin_sq_num s t : ℤ) : ℝ) /
          ((wilson_margin_sq_den t : ℤ) : ℝ)))) := by
  have hcd := wilson_center_den_pos t
  have hcn := wilson_center_num_pos s
  have hmd := wilson_margin_sq_den_pos t ht
  have hmn := wilson_margin_sq_num_nonneg s t hst
  have hcdR : (0 : ℝ) < ((wilson_center_den t : ℤ) : ℝ) := by exact_mod_cast hcd
  have hcnR : (0 : ℝ) < ((wilson_center_num s : ℤ) : ℝ) := by exact_mod_cast hcn
  have hmdR : (0 : ℝ) < ((wilson_margin_sq_den t : ℤ) : ℝ) := by exact_mod_cast hmd
  have hmnR : (0 : ℝ) ≤ ((wilson_margin_sq_num s t : ℤ) : ℝ) := by exact_mod_cast hmn
  by_cases hc : wilson_center_num s ^ 2 * wilson_margin_sq_den t ≤
      wilson_margin_sq_num s t * wilson_center_den t ^ 2
  · rw [wilson_lo4, if_pos hc]
    have hcR : ((wilson_center_num s : ℤ) : ℝ) ^ 2 * ((wilson_margin_sq_den t : ℤ) : ℝ) ≤
        ((wilson_margin_sq_num s t : ℤ) : ℝ) * ((wilson_center_den t : ℤ) : ℝ) ^ 2 := by
      exact_mod_cast hc
    have hle : ((wilson_center_num s : ℤ) : ℝ) / ((wilson_center_den t : ℤ) : ℝ) ≤
        Real.sqrt (((wilson_margin_sq_num s t : ℤ) : ℝ) /
          ((wilson_margin_sq_den t : ℤ) : ℝ)) := by
      refine (Real.le_sqrt (div_nonneg hcnR.le hcdR.le) (div_nonneg hmnR hmdR.le)).2 ?_
      rw [div_pow, div_le_div_iff (pow_pos hcdR 2) hmdR]
      nlinarith
    have hmax : max 0 (((wilson_center_num s : ℤ) : ℝ) / ((wilson_center_den t : ℤ) : ℝ) -
        Real.sqrt (((wilson_margin_sq_num s t : ℤ) : ℝ) /
          ((wilson_margin_sq_den t : ℤ) : ℝ))) = 0 :=
      max_eq_left (by linarith)
    rw [hmax, round4R]
    have hfl : ⌊(0 : ℝ) * 10 ^ 4 + 1 / 2⌋ = 0 := by
      rw [Int.floor_eq_iff]
      norm_num
    rw [hfl]
  · rw [wilson_lo4, if_neg hc]
    have hcR : ((wilson_margin_sq_num s t : ℤ) : ℝ) * ((wilson_center_den t : ℤ) : ℝ) ^ 2 <
        ((wilson_center_num s : ℤ) : ℝ) ^ 2 * ((wilson_margin_sq_den t : ℤ) : ℝ) := by
      push_neg at hc
      exact_mod_cast hc
    have hlt : Real.sqrt (((wilson_margin_sq_num s t : ℤ) : ℝ) /
        ((wilson_margin_sq_den t : ℤ) : ℝ)) <
        ((wilson_center_num s : ℤ) : ℝ) / ((wilson_center_den t : ℤ) : ℝ) := by
      refine (Real.sqrt_lt' (div_pos hcnR hcdR)).2 ?_
      rw [div_pow, div_lt_div_iff hmdR (pow_pos hcdR 2)]
      nlinarith
    have hmax : max 0 (((wilson_center_num s : ℤ) : ℝ) / ((wilson_center_den t : ℤ) : ℝ) -
        Real.sqrt (((wilson_margin_sq_num s t : ℤ) : ℝ) /
          ((wilson_margin_sq_den t : ℤ) : ℝ))) =
        ((wilson_center_num s : ℤ) : ℝ) / ((wilson_center_den t : ℤ) : ℝ) -
          Real.sqrt (((wilson_margin_sq_num s t : ℤ) : ℝ) /
            ((wilson_margin_sq_den t : ℤ) : ℝ)) :=
      max_eq_right (by linarith)
    rw [hmax, round4R]
    have hU : (0 : ℤ) ≤ 10 ^ 8 * wilson_margin_sq_num s t := mul_nonneg (by norm_num) hmn
    have hB : (0 : ℤ) < 2 * wilson_center_den t := by linarith
    have hsqrtU : Real.sqrt (((10 ^ 8 * wilson_margin_sq_num s t : ℤ) : ℝ) /
        ((wilson_margin_sq_den t : ℤ) : ℝ)) =
        10 ^ 4 * Real.sqrt (((wilson_margin_sq_num s t : ℤ) : ℝ) /
          ((wilson_margin_sq_den t : ℤ) : ℝ)) := by
      have h1 : ((10 ^ 8 * wilson_margin_sq_num s t : ℤ) : ℝ) /
          ((wilson_margin_sq_den t : ℤ) : ℝ) =
          ((10 : ℝ) ^ 4) ^ 2 * (((wilson_margin_sq_num s t : ℤ) : ℝ) /
            ((wilson_margin_sq_den t : ℤ) : ℝ)) := by
        push_cast
        ring
      rw [h1, Real.sqrt_mul (by positivity), Real.sqrt_sq (by positivity)]
    have hkey : (((wilson_center_num s : ℤ) : ℝ) / ((wilson_center_den t : ℤ) : ℝ) -
        Real.sqrt (((wilson_margin_sq_num s t : ℤ) : ℝ) /
          ((wilson_margin_sq_den t : ℤ) : ℝ))) * 10 ^ 4 + 1 / 2 =
        ((2 * 10 ^ 4 * wilson_center_num s + wilson_center_den t : ℤ) : ℝ) /
          ((2 * wilson_center_den t : ℤ) : ℝ) -
          Real.sqrt (((10 ^ 8 * wilson_margin_sq_num s t : ℤ) : ℝ) /
            ((wilson_margin_sq_den t : ℤ) : ℝ)) := by
      rw [hsqrtU]
      push_cast
      field_simp
      ring
    rw [hkey, ← floorQuadSub_eq _ _ _ _ hB hU hmd]

theorem wilson_hi4_models (s t : ℕ) (hst : s ≤ t) (ht : 0 < t) :
    ((wilson_hi4 s t : ℤ) : ℝ) / 10 ^ 4 =
      round4R (min 1 (((wilson_center_num s : ℤ) : ℝ) / ((wilson_center_den t : ℤ) : ℝ) +
        Real.sqrt (((wilson_margin_sq_num s t : ℤ) : ℝ) /
          ((wilson_margin_sq_den t : ℤ) : ℝ)))) := by
  have hcd := wilson_center_den_pos t
  have hcn := wilson_center_num_pos s
  have hmd := wilson_margin_sq_den_pos t ht
  have hmn := wilson_margin_sq_num_nonneg s t hst
  have hcdR : (0 : ℝ) < ((wilson_center_den t : ℤ) : ℝ) := by exact_mod_cast hcd
  have hcnR : (0 : ℝ) < ((wilson_center_num s : ℤ) : ℝ) := by exact_mod_cast hcn
  have hmdR : (0 : ℝ) < ((wilson_margin_sq_den t : ℤ) : ℝ) := by exact_mod_cast hmd
  have hmnR : (0 : ℝ) ≤ ((wilson_margin_sq_num s t : ℤ) : ℝ) := by exact_mod_cast hmn
  by_cases hc : wilson_center_den t ≤ wilson_center_num s ∨
      (wilson_center_den t - wilson_center_num s) ^ 2 * wilson_margin_sq_den t ≤
        wilson_margin_sq_num s t * wilson_center_den t ^ 2
  · rw [wilson_hi4, if_pos hc]
    have hone : (1 : ℝ) ≤ ((wilson_center_num s : ℤ) : ℝ) / ((wilson_center_den t : ℤ) : ℝ) +
        Real.sqrt (((wilson_margin_sq_num s t : ℤ) : ℝ) /
          ((wilson_margin_sq_den t : ℤ) : ℝ)) := by
      rcases hc with hc1 | hc2
      · have h1 : (1 : ℝ) ≤ ((wilson_center_num s : ℤ) : ℝ) /
            ((wilson_center_den t : ℤ) : ℝ) := by
          rw [one_le_div hcdR]
          exact_mod_cast hc1
        have h2 := Real.sqrt_nonneg (((wilson_margin_sq_num s t : ℤ) : ℝ) /
          ((wilson_margin_sq_den t : ℤ) : ℝ))
        linarith
      · have hc2R : (((wilson_center_den t : ℤ) : ℝ) - ((wilson_center_num s : ℤ) : ℝ)) ^ 2 *
            ((wilson_margin_sq_den t : ℤ) : ℝ) ≤
            ((wilson_margin_sq_num s t : ℤ) : ℝ) * ((wilson_center_den t : ℤ) : ℝ) ^ 2 := by
          exact_mod_cast hc2
        have h1 : ((((wilson_center_den t : ℤ) : ℝ) - ((wilson_center_num s : ℤ) : ℝ)) /
            ((wilson_center_den t : ℤ) : ℝ)) ^ 2 ≤
            ((wilson_margin_sq_num s t : ℤ) : ℝ) / ((wilson_margin_sq_den t : ℤ) : ℝ) := by
          rw [div_pow, div_le_div_iff (pow_pos hcdR 2) hmdR]
          linarith [hc2R]
        have h2 : |(((wilson_center_den t : ℤ) : ℝ) - ((wilson_center_num s : ℤ) : ℝ)) /
            ((wilson_center_den t : ℤ) : ℝ)| ≤
            Real.sqrt (((wilson_margin_sq_num s t : ℤ) : ℝ) /
              ((wilson_margin_sq_den t : ℤ) : ℝ)) := by
          rw [← Real.sqrt_sq_eq_abs]
          exact Real.sqrt_le_sqrt h1
        have h3 := le_abs_self ((((wilson_center_den t : ℤ) : ℝ) -
          ((wilson_center_num s : ℤ) : ℝ)) / ((wilson_center_den t : ℤ) : ℝ))
        have h4 : (((wilson_center_den t : ℤ) : ℝ) - ((wilson_center_num s : ℤ) : ℝ)) /
            ((wilson_center_den t : ℤ) : ℝ) =
            1 - ((wilson_center_num s : ℤ) : ℝ) / ((wilson_center_den t : ℤ) : ℝ) := by
          field_simp
        linarith
    have hmin : min 1 (((wilson_center_num s : ℤ) : ℝ) / ((wilson_center_den t : ℤ) : ℝ) +
        Real.sqrt (((wilson_margin_sq_num s t : ℤ) : ℝ) /
          ((wilson_margin_sq_den t : ℤ) : ℝ))) = 1 :=
      min_eq_left hone
    rw [hmin, round4R]
    have hfl : ⌊(1 : ℝ) * 10 ^ 4 + 1 / 2⌋ = 10 ^ 4 := by
      rw [Int.floor_eq_iff]
      constructor
      · push_cast
        norm_num
      · push_cast
        norm_num
    rw [hfl]
  · rw [wilson_hi4, if_neg hc]
    push_neg at hc
    obtain ⟨hc1, hc2⟩ := hc
    have hc1R : ((wilson_center_num s : ℤ) : ℝ) < ((wilson_center_den t : ℤ) : ℝ) := by
      exact_mod_cast hc1
    have hc2R : ((wilson_margin_sq_num s t : ℤ) : ℝ) * ((wilson_center_den t : ℤ) : ℝ) ^ 2 <
        (((wilson_center_den t : ℤ) : ℝ) - ((wilson_center_num s : ℤ) : ℝ)) ^ 2 *
          ((wilson_margin_sq_den t : ℤ) : ℝ) := by
      exact_mod_cast hc2
    have hlt : Real.sqrt (((wilson_margin_sq_num s t : ℤ) : ℝ) /
        ((wilson_margin_sq_den t : ℤ) : ℝ)) <
        (((wilson_center_den t : ℤ) : ℝ) - ((wilson_center_num s : ℤ) : ℝ)) /
          ((wilson_center_den t : ℤ) : ℝ) := by
      refine (Real.sqrt_lt' (div_pos (by linarith) hcdR)).2 ?_
      rw [div_pow, div_lt_div_iff hmdR (pow_pos hcdR 2)]
      linarith [hc2R]
    have hsum : ((wilson_center_num s : ℤ) : ℝ) / ((wilson_center_den t : ℤ) : ℝ) +
        Real.sqrt (((wilson_margin_sq_num s t : ℤ) : ℝ) /
          ((wilson_margin_sq_den t : ℤ) : ℝ)) < 1 := by
      have h4 : (((wilson_center_den t : ℤ) : ℝ) - ((wilson_center_num s : ℤ) : ℝ)) /
          ((wilson_center_den t : ℤ) : ℝ) =
          1 - ((wilson_center_num s : ℤ) : ℝ) / ((wilson_center_den t : ℤ) : ℝ) := by
        field_simp
      linarith [hlt, h4.symm.le]
    have hmin : min 1 (((wilson_center_num s : ℤ) : ℝ) / ((wilson_center_den t : ℤ) : ℝ) +
        Real.sqrt (((wilson_margin_sq_num s t : ℤ) : ℝ) /
          ((wilson_margin_sq_den t : ℤ) : ℝ))) =
        ((wilson_center_num s : ℤ) : ℝ) / ((wilson_center_den t : ℤ) : ℝ) +
          Real.sqrt (((wilson_margin_sq_num s t : ℤ) : ℝ) /
            ((wilson_margin_sq_den t : ℤ) : ℝ)) :=
      min_eq_right hsum.le
    rw [hmin, round4R]
    have hU : (0 : ℤ) ≤ 10 ^ 8 * wilson_margin_sq_num s t := mul_nonneg (by norm_num) hmn
    have hB : (0 : ℤ) < 2 * wilson_center_den t := by linarith
    have hsqrtU : Real.sqrt (((10 ^ 8 * wilson_margin_sq_num s t : ℤ) : ℝ) /
        ((wilson_margin_sq_den t : ℤ) : ℝ)) =
        10 ^ 4 * Real.sqrt (((wilson_margin_sq_num s t : ℤ) : ℝ) /
          ((wilson_margin_sq_den t : ℤ) : ℝ)) := by
      have h1 : ((10 ^ 8 * wilson_margin_sq_num s t : ℤ) : ℝ) /
          ((wilson_margin_sq_den t : ℤ) : ℝ) =
          ((10 : ℝ) ^ 4) ^ 2 * (((wilson_margin_sq_num s t : ℤ) : ℝ) /
            ((wilson_margin_sq_den t : ℤ) : ℝ)) := by
        push_cast
        ring
      rw [h1, Real.sqrt_mul (by positivity), Real.sqrt_sq (by positivity)]
    have hkey : (((wilson_center_num s : ℤ) : ℝ) / ((wilson_center_den t : ℤ) : ℝ) +
        Real.sqrt (((wilson_margin_sq_num s t : ℤ) : ℝ) /
          ((wilson_margin_sq_den t : ℤ) : ℝ))) * 10 ^ 4 + 1 / 2 =
        ((2 * 10 ^ 4 * wilson_center_num s + wilson_center_den t : ℤ) : ℝ) /
          ((2 * wilson_center_den t : ℤ) : ℝ) +
          Real.sqrt (((10 ^ 8 * wilson_margin_sq_num s t : ℤ) : ℝ) /
            ((wilson_margin_sq_den t : ℤ) : ℝ)) := by
      rw [hsqrtU]
      push_cast
      field_simp
      ring
    rw [hkey, ← floorQuadAdd_eq _ _ _ _ hB hU hmd]

/-- Main numerical bridge: the all-integer fixed-point Wilson computation
returns exactly the 4-decimal rounding of the real-number Wilson score
formula written in the source. -/
theorem calculate_wilson_ci_models_real (s t : ℕ) (hst : s ≤ t) (ht : 0 < t) :
    (((calculate_wilson_ci s t).1 : ℝ) / 10 ^ 4, ((calculate_wilson_ci s t).2.1 : ℝ) / 10 ^ 4,
      ((calculate_wilson_ci s t).2.2 : ℝ) / 10 ^ 4) = wilsonReal s t := by
  have ht0 : t ≠ 0 := ht.ne'
  simp only [calculate_wilson_ci, wilsonReal, if_neg ht0]
  refine Prod.ext ?_ (Prod.ext ?_ ?_)
  · simpa using wilson_freq4_models s t ht
  · have h := wilson_lo4_models s t hst ht
    rw [wilson_center_eq s t ht, wilson_margin_eq s t hst ht]
    simpa using h
  · have h := wilson_hi4_models s t hst ht
    rw [wilson_center_eq s t ht, wilson_margin_eq s t hst ht]
    simpa using h

/-! ### Association-list and set lemmas -/

theorem mem_upsert {κ β : Type} [DecidableEq κ] (k : κ) (v : β) :
    ∀ (l : List (κ × β)) (p : κ × β), p ∈ upsert k v l → p = (k, v) ∨ p ∈ l := by
  intro l
  induction l with
  | nil =>
    intro p hp
    simp [upsert] at hp
    exact Or.inl hp
  | cons q rest ih =>
    intro p hp
    unfold upsert at hp
    by_cases hq : q.1 = k
    · rw [if_pos hq] at hp
      rcases List.mem_cons.1 hp with h | h
      · exact Or.inl h
      · exact Or.inr (List.mem_cons_of_mem q h)
    · rw [if_neg hq] at hp
      rcases List.mem_cons.1 hp with h | h
      · exact Or.inr (h ▸ List.mem_cons_self q rest)
      · rcases ih p h with h1 | h1
        · exact Or.inl h1
        · exact Or.inr (List.mem_cons_of_mem q h1)

theorem lookupAssoc_mem {κ β : Type} [DecidableEq κ] (k : κ) (v : β) :
    ∀ l : List (κ × β), lookupAssoc k l = some v → (k, v) ∈ l := by
  intro l
  induction l with
  | nil => intro h; simp [lookupAssoc] at h
  | cons q rest ih =>
    intro h
    unfold lookupAssoc at h
    by_cases hq : q.1 = k
    · rw [if_pos hq] at h
      have : q = (k, v) := by
        cases q
        simp_all
      exact this ▸ List.mem_cons_self q rest
    · rw [if_neg hq] at h
      exact List.mem_cons_of_mem q (ih h)

theorem updateAssoc_forall {κ β : Type} [DecidableEq κ] (P : β → Prop) (key : κ) (dflt : β)
    (f : β → β) (hf : ∀ b, P b → P (f b)) (hd : P (f dflt)) :
    ∀ l : List (κ × β), (∀ p ∈ l, P p.2) → ∀ p ∈ updateAssoc key dflt f l, P p.2 := by
  intro l
  induction l with
  | nil =>
    intro _ p hp
    simp [updateAssoc] at hp
    rw [hp]
    exact hd
  | cons q rest ih =>
    intro hl p hp
    unfold updateAssoc at hp
    by_cases hq : q.1 = key
    · rw [if_pos hq] at hp
      rcases List.mem_cons.1 hp with h | h
      · rw [h]
        exact hf q.2 (hl q (List.mem_cons_self q rest))
      · exact hl p (List.mem_cons_of_mem q h)
    · rw [if_neg hq] at hp
      rcases List.mem_cons.1 hp with h | h
      · rw [h]
        exact hl q (List.mem_cons_self q rest)
      · exact ih (fun p hp => hl p (List.mem_cons_of_mem q hp)) p h

theorem updateAssoc_keys {κ β : Type} [DecidableEq κ] (key : κ) (dflt : β) (f : β → β) :
    ∀ l : List (κ × β),
      (updateAssoc key dflt f l).map Prod.fst =
        if key ∈ l.map Prod.fst then l.map Prod.fst else l.map Prod.fst ++ [key] := by
  intro l
  induction l with
  | nil => simp [updateAssoc]
  | cons q rest ih =>
    unfold updateAssoc
    by_cases hq : q.1 = key
    · rw [if_pos hq]
      have hmem : key ∈ q.1 :: List.map Prod.fst rest := List.mem_cons.2 (Or.inl hq.symm)
      simp only [List.map_cons]
      rw [if_pos hmem]
    · rw [if_neg hq]
      simp only [List.map_cons]
      by_cases hm : key ∈ List.map Prod.fst rest
      · have hmem : key ∈ q.1 :: List.map Prod.fst rest := List.mem_cons.2 (Or.inr hm)
        rw [ih, if_pos hm, if_pos hmem]
      · have hmem : key ∉ q.1 :: List.map Prod.fst rest := by
          intro h
          rcases List.mem_cons.1 h with h1 | h1
          · exact hq h1.symm
          · exact hm h1
        rw [ih, if_neg hm, if_neg hmem]
        simp

theorem updateAssoc_keys_nodup {κ β : Type} [DecidableEq κ] (key : κ) (dflt : β) (f : β → β)
    (l : List (κ × β)) (h : (l.map Prod.fst).Nodup) :
    ((updateAssoc key dflt f l).map Prod.fst).Nodup := by
  rw [updateAssoc_keys]
  by_cases hm : key ∈ l.map Prod.fst
  · rw [if_pos hm]
    exact h
  · rw [if_neg hm]
    simp [List.nodup_append, h, hm]

theorem assoc_same_key_eq {κ β : Type} [DecidableEq κ] :
    ∀ (l : List (κ × β)), (l.map Prod.fst).Nodup →
      ∀ p ∈ l, ∀ q ∈ l, p.1 = q.1 → p = q := by
  intro l
  induction l with
  | nil => intro _ p hp; simp at hp
  | cons r rest ih =>
    intro hnd p hp q hq hpq
    have hnd1 : r.1 ∉ rest.map Prod.fst := by
      simp only [List.map_cons, List.nodup_cons] at hnd
      exact hnd.1
    have hnd2 : (rest.map Prod.fst).Nodup := by
      simp only [List.map_cons, List.nodup_cons] at hnd
      exact hnd.2
    rcases List.mem_cons.1 hp with h1 | h1 <;> rcases List.mem_cons.1 hq with h2 | h2
    · rw [h1, h2]
    · exfalso
      apply hnd1
      rw [← h1, hpq]
      exact List.mem_map_of_mem Prod.fst h2
    · exfalso
      apply hnd1
      rw [← h2, ← hpq]
      exact List.mem_map_of_mem Prod.fst h1
    · exact ih hnd2 p h1 q h2 hpq

theorem mem_addSet (x y : String) (l : List String) :
    y ∈ addSet x l ↔ y = x ∨ y ∈ l := by
  unfold addSet
  by_cases hx : x ∈ l
  · rw [if_pos hx]
    constructor
    · exact Or.inr
    · rintro (h | h)
      · rw [h]; exact hx
      · exact h
  · rw [if_neg hx]
    simp [List.mem_append, or_comm]

theorem addSet_nodup (x : String) (l : List String) (h : l.Nodup) : (addSet x l).Nodup := by
  unfold addSet
  by_cases hx : x ∈ l
  · rw [if_pos hx]; exact h
  · rw [if_neg hx]
    simp [List.nodup_append, h, hx]

theorem addSet_of_mem {x : String} {l : List String} (h : x ∈ l) : addSet x l = l :=
  if_pos h

theorem addSet_of_not_mem {x : String} {l : List String} (h : x ∉ l) :
    addSet x l = l ++ [x] :=
  if_neg h

theorem upsert_map_self (f : String → Nat) (k : String) :
    ∀ l : List String, k ∈ l →
      upsert k (f k) (l.map fun s => (s, f s)) = l.map fun s => (s, f s) := by
  intro l
  induction l with
  | nil => intro h; simp at h
  | cons s rest ih =>
    intro hk
    simp only [List.map_cons]
    unfold upsert
    by_cases hs : s = k
    · rw [if_pos (by simpa using hs)]
      rw [hs]
    · rw [if_neg (by simpa using hs)]
      rcases List.mem_cons.1 hk with h | h
      · exact absurd h.symm hs
      · rw [ih h]

theorem upsert_map_not_mem (f : String → Nat) (k : String) (v : Nat) :
    ∀ l : List String, k ∉ l →
      upsert k v (l.map fun s => (s, f s)) = (l.map fun s => (s, f s)) ++ [(k, v)] := by
  intro l
  induction l with
  | nil => intro _; simp [upsert]
  | cons s rest ih =>
    intro hk
    simp only [List.map_cons]
    unfold upsert
    have hs : s ≠ k := fun h => hk (h ▸ List.mem_cons_self s rest)
    rw [if_neg (by simpa using hs)]
    rw [ih (fun h => hk (List.mem_cons_of_mem s h))]
    simp

theorem sumValues_foldl (l : List (String × Nat)) :
    ∀ acc : Nat, l.foldl (fun a p => a + p.2) acc = acc + (l.map fun p => p.2).sum := by
  induction l with
  | nil => intro acc; simp
  | cons p rest ih =>
    intro acc
    simp only [List.foldl_cons, List.map_cons, List.sum_cons]
    rw [ih]
    omega

theorem sumValues_map (f : String → Nat) (l : List String) :
    sumValues (l.map fun s => (s, f s)) = (l.map f).sum := by
  unfold sumValues
  rw [sumValues_foldl]
  simp only [List.map_map, Nat.zero_add]
  rfl

/-! ### Invariants of the aggregation fold -/

theorem groupStep_inv (denoms : List (String × Nat × String)) (acc : List (AggKey × GroupData))
    (mu : CBioMutation) (hacc : ∀ kg ∈ acc, GroupInv denoms kg.2) :
    ∀ kg ∈ groupStep denoms acc mu, GroupInv denoms kg.2 := by
  unfold groupStep
  cases hsid : mu.studyId with
  | none => exact hacc
  | some sid =>
    dsimp only
    cases hlk : lookupAssoc sid denoms with
    | none => exact hacc
    | some info =>
      dsimp only
      intro kg hkg
      refine updateAssoc_forall (GroupInv denoms) _ emptyGroup _ ?_ ?_ acc hacc kg hkg
      · intro g hg
        obtain ⟨h1, h2, h3⟩ := hg
        have hdt : denomTotal denoms sid = info.1 := by
          unfold denomTotal
          rw [hlk]
        by_cases hmem : sid ∈ g.studies
        · refine ⟨?_, ?_, ?_⟩
          · simp only [addSet_of_mem hmem, h1, ← hdt]
            exact upsert_map_self (denomTotal denoms) sid g.studies hmem
          · rw [addSet_of_mem hmem]
            exact h2
          · rw [addSet_of_mem hmem]
            exact h3
        · refine ⟨?_, ?_, ?_⟩
          · simp only [addSet_of_not_mem hmem, h1, ← hdt]
            rw [upsert_map_not_mem (denomTotal denoms) sid (denomTotal denoms sid)
              g.studies hmem]
            simp
          · rw [addSet_of_not_mem hmem]
            simp [List.nodup_append, h2, hmem]
          · rw [addSet_of_not_mem hmem]
            intro s hs
            rcases List.mem_append.1 hs with h | h
            · exact h3 s h
            · simp at h
              rw [h, hlk]
              rfl
      · have hdt : denomTotal denoms sid = info.1 := by
          unfold denomTotal
          rw [hlk]
        refine ⟨?_, ?_, ?_⟩
        · simp [emptyGroup, addSet, upsert, hdt]
        · simp [emptyGroup, addSet]
        · intro s hs
          simp [emptyGroup, addSet] at hs
          rw [hs, hlk]
          rfl

theorem buildGroups_inv_aux (denoms : List (String × Nat × String)) :
    ∀ (l : List CBioMutation) (acc : List (AggKey × GroupData)),
      (∀ kg ∈ acc, GroupInv denoms kg.2) →
      ∀ kg ∈ l.foldl (groupStep denoms) acc, GroupInv denoms kg.2 := by
  intro l
  induction l with
  | nil => intro acc hacc; exact hacc
  | cons mu rest ih =>
    intro acc hacc
    exact ih (groupStep denoms acc mu) (groupStep_inv denoms acc mu hacc)

theorem buildGroups_inv (mutations : List CBioMutation) (denoms : List (String × Nat × String)) :
    ∀ kg ∈ buildGroups mutations denoms, GroupInv denoms kg.2 :=
  buildGroups_inv_aux denoms mutations [] (by simp)

theorem groupStep_keys_nodup (denoms : List (String × Nat × String))
    (acc : List (AggKey × GroupData)) (mu : CBioMutation)
    (h : (acc.map Prod.fst).Nodup) : ((groupStep denoms acc mu).map Prod.fst).Nodup := by
  unfold groupStep
  cases mu.studyId with
  | none => exact h
  | some sid =>
    dsimp only
    cases lookupAssoc sid denoms with
    | none => exact h
    | some info => exact updateAssoc_keys_nodup _ _ _ acc h

theorem buildGroups_keys_nodup_aux (denoms : List (String × Nat × String)) :
    ∀ (l : List CBioMutation) (acc : List (AggKey × GroupData)),
      (acc.map Prod.fst).Nodup → ((l.foldl (groupStep denoms) acc).map Prod.fst).Nodup := by
  intro l
  induction l with
  | nil => intro acc hacc; exact hacc
  | cons mu rest ih =>
    intro acc hacc
    exact ih (groupStep denoms acc mu) (groupStep_keys_nodup denoms acc mu hacc)

theorem buildGroups_keys_nodup (mutations : List CBioMutation)
    (denoms : List (String × Nat × String)) :
    ((buildGroups mutations denoms).map Prod.fst).Nodup :=
  buildGroups_keys_nodup_aux denoms mutations [] (by simp)

theorem groupStep_skip (denoms : List (String × Nat × String))
    (acc : List (AggKey × GroupData)) (mu : CBioMutation)
    (h : mutResolved denoms mu = false) : groupStep denoms acc mu = acc := by
  unfold mutResolved at h
  unfold groupStep
  cases hsid : mu.studyId with
  | none => rfl
  | some sid =>
    rw [hsid] at h
    dsimp only at h
    dsimp only
    cases hlk : lookupAssoc sid denoms with
    | none => rfl
    | some info =>
      rw [hlk] at h
      simp at h

theorem buildGroups_filter_aux (denoms : List (String × Nat × String)) :
    ∀ (l : List CBioMutation) (acc : List (AggKey × GroupData)),
      l.foldl (groupStep denoms) acc =
        (l.filter (mutResolved denoms)).foldl (groupStep denoms) acc := by
  intro l
  induction l with
  | nil => intro acc; rfl
  | cons mu rest ih =>
    intro acc
    by_cases hr : mutResolved denoms mu = true
    · rw [List.foldl_cons, List.filter_cons_of_pos hr, List.foldl_cons, ih]
    · have hf : mutResolved denoms mu = false := by
        simpa using hr
      rw [List.foldl_cons, List.filter_cons_of_neg (by simp [hf]), groupStep_skip denoms acc mu hf,
        ih]

theorem buildGroups_filter (mutations : List CBioMutation)
    (denoms : List (String × Nat × String)) :
    buildGroups mutations denoms = buildGroups (mutations.filter (mutResolved denoms)) denoms :=
  buildGroups_filter_aux denoms mutations []

/-! ### The per-group collection loop as a `filterMap` -/

theorem foldl_collectGroup :
    ∀ (l : List (AggKey × GroupData)) (acc : List MutationFrequency),
      l.foldl collectGroup acc = acc ++ l.filterMap processGroup := by
  intro l
  induction l with
  | nil => intro acc; simp
  | cons x rest ih =>
    intro acc
    rw [List.foldl_cons]
    cases hf : processGroup x with
    | none =>
      have hstep : collectGroup acc x = acc := by
        unfold collectGroup
        rw [hf]
      rw [hstep, ih, List.filterMap_cons_none hf]
    | some b =>
      have hstep : collectGroup acc x = acc ++ [b] := by
        unfold collectGroup
        rw [hf]
      rw [hstep, ih, List.filterMap_cons_some hf]
      simp

theorem process_eq_filterMap (mutations : List CBioMutation) (studies : List CBioStudy) :
    process_cbioportal_with_frequencies mutations studies =
      (buildGroups mutations (buildDenoms studies)).filterMap processGroup := by
  unfold process_cbioportal_with_frequencies
  simpa using foldl_collectGroup (buildGroups mutations (buildDenoms studies)) []

theorem mem_process_iff (mutations : List CBioMutation) (studies : List CBioStudy)
    (r : MutationFrequency) :
    r ∈ process_cbioportal_with_frequencies mutations studies ↔
      ∃ kg, kg ∈ buildGroups mutations (buildDenoms studies) ∧ processGroup kg = some r := by
  rw [process_eq_filterMap]
  simp [List.mem_filterMap]

/-! ### Inversion of the per-group body and of the validator -/

theorem processGroup_eq_some (kg : AggKey × GroupData) (r : MutationFrequency)
    (h : processGroup kg = some r) :
    r.gene_symbol = kg.1.1 ∧ r.cancer_type = kg.1.2.1 ∧ r.protein_change = kg.1.2.2 ∧
      r.samples_with_mutation = kg.2.samples.length ∧
      r.total_samples_tested = sumValues kg.2.study_denoms ∧
      r.source = "cbioportal" ∧
      r.study_ids = kg.2.studies ∧
      r.quality_tier = DataQuality.populationFrequency ∧
      validate_frequency r = true ∧
      r.samples_with_mutation ≤ r.total_samples_tested ∧
      0 ≤ r.frequency4 ∧ r.frequency4 ≤ 10 ^ 4 ∧
      r.ci_95_low4 ≤ r.frequency4 ∧ r.frequency4 ≤ r.ci_95_high4 := by
  unfold processGroup at h
  by_cases h0 : sumValues kg.2.study_denoms = 0
  · rw [if_pos h0] at h
    exact absurd h (by simp)
  · rw [if_neg h0] at h
    dsimp only at h
    cases hmk : mkMutationFrequency kg.1.1 kg.1.2.1 kg.1.2.2 kg.2.samples.length
        (sumValues kg.2.study_denoms) (calculate_wilson_ci kg.2.samples.length
          (sumValues kg.2.study_denoms)).1
        (calculate_wilson_ci kg.2.samples.length (sumValues kg.2.study_denoms)).2.1
        (calculate_wilson_ci kg.2.samples.length (sumValues kg.2.study_denoms)).2.2
        "cbioportal" kg.2.studies DataQuality.populationFrequency with
    | none =>
      rw [hmk] at h
      simp at h
    | some mf =>
      rw [hmk] at h
      dsimp only at h
      by_cases hv : validate_frequency mf = true
      · rw [if_pos hv] at h
        have hmfr : mf = r := by
          simpa using h
        subst hmfr
        unfold mkMutationFrequency at hmk
        by_cases hcond : kg.2.samples.length ≤ sumValues kg.2.study_denoms ∧
            0 ≤ (calculate_wilson_ci kg.2.samples.length (sumValues kg.2.study_denoms)).1 ∧
            (calculate_wilson_ci kg.2.samples.length (sumValues kg.2.study_denoms)).1 ≤ 10 ^ 4 ∧
            (calculate_wilson_ci kg.2.samples.length (sumValues kg.2.study_denoms)).2.1 ≤
              (calculate_wilson_ci kg.2.samples.length (sumValues kg.2.study_denoms)).1 ∧
            (calculate_wilson_ci kg.2.samples.length (sumValues kg.2.study_denoms)).1 ≤
              (calculate_wilson_ci kg.2.samples.length (sumValues kg.2.study_denoms)).2.2
        · rw [if_pos hcond] at hmk
          have hmf : mf = ⟨kg.1.1, kg.1.2.1, kg.1.2.2, kg.2.samples.length,
              sumValues kg.2.study_denoms,
              (calculate_wilson_ci kg.2.samples.length (sumValues kg.2.study_denoms)).1,
              (calculate_wilson_ci kg.2.samples.length (sumValues kg.2.study_denoms)).2.1,
              (calculate_wilson_ci kg.2.samples.length (sumValues kg.2.study_denoms)).2.2,
              "cbioportal", kg.2.studies, DataQuality.populationFrequency⟩ := by
            simpa using hmk.symm
          subst hmf
          obtain ⟨hc1, hc2, hc3, hc4, hc5⟩ := hcond
          exact ⟨rfl, rfl, rfl, rfl, rfl, rfl, rfl, rfl, hv, hc1, hc2, hc3, hc4, hc5⟩
        · rw [if_neg hcond] at hmk
          exact absurd hmk (by simp)
      · rw [if_neg hv] at h
        exact absurd h (by simp)

theorem validate_frequency_false_iff (m : MutationFrequency) :
    validate_frequency m = false ↔
      (9500 < m.frequency4 ∨ hotspotRejects m = true ∨
        5000 < m.ci_95_high4 - m.ci_95_low4) := by
  unfold validate_frequency
  by_cases h1 : 9500 < m.frequency4
  · rw [if_pos h1]
    simp [h1]
  · rw [if_neg h1]
    by_cases h2 : hotspotRejects m = true
    · rw [if_pos h2]
      simp [h1, h2]
    · have h2f : hotspotRejects m = false := by simpa using h2
      rw [if_neg (by simp [h2f])]
      by_cases h3 : 5000 < m.ci_95_high4 - m.ci_95_low4
      · rw [if_pos h3]
        simp [h1, h2f, h3]
      · rw [if_neg h3]
        simp [h1, h2f, h3]

theorem validate_frequency_true_bound (m : MutationFrequency)
    (h : validate_frequency m = true) : m.frequency4 ≤ 9500 := by
  by_contra hc
  have : validate_frequency m = false :=
    (validate_frequency_false_iff m).2 (Or.inl (by omega))
  rw [h] at this
  exact absurd this (by simp)

theorem hotspotRejects_iff (m : MutationFrequency) :
    hotspotRejects m = true ↔
      ∃ e ∈ known_hotspots, m.gene_symbol = e.gene ∧
        (e.variant = "*" ∨ strContains m.protein_change e.variant = true) ∧
        10 * m.frequency4 < e.min_freq4 := by
  unfold hotspotRejects
  rw [List.any_eq_true]
  constructor
  · rintro ⟨e, he, hcond⟩
    simp only [Bool.and_eq_true, Bool.or_eq_true, beq_iff_eq, decide_eq_true_eq] at hcond
    exact ⟨e, he, hcond.1.1, hcond.1.2, hcond.2⟩
  · rintro ⟨e, he, h1, h2, h3⟩
    refine ⟨e, he, ?_⟩
    simp only [Bool.and_eq_true, Bool.or_eq_true, beq_iff_eq, decide_eq_true_eq]
    exact ⟨⟨h1, h2⟩, h3⟩

/-! ### Tracing entries of the production denominator map -/

theorem denomStep_mem (m : List (String × Nat × String)) (st : CBioStudy)
    (p : String × Nat × String) (h : p ∈ denomStep m st) :
    p ∈ m ∨ denomEntryFrom st p := by
  unfold denomStep at h
  cases hsid : st.studyId with
  | none =>
    rw [hsid] at h
    exact Or.inl h
  | some sid =>
    rw [hsid] at h
    dsimp only at h
    by_cases hc : sid ≠ "" ∧ 0 < studySampleCount st
    · rw [if_pos hc] at h
      rcases mem_upsert sid (studySampleCount st, st.cancerTypeName.getD "Unknown") m p h with
        h1 | h1
      · right
        refine ⟨?_, ?_, hc.2, ?_⟩
        · rw [hsid, h1]
        · rw [h1]
          exact hc.1
        · rw [h1]
      · exact Or.inl h1
    · rw [if_neg hc] at h
      exact Or.inl h

theorem buildDenoms_mem_aux :
    ∀ (l : List CBioStudy) (acc : List (String × Nat × String)) (p : String × Nat × String),
      p ∈ l.foldl denomStep acc → p ∈ acc ∨ ∃ st ∈ l, denomEntryFrom st p := by
  intro l
  induction l with
  | nil => intro acc p h; exact Or.inl h
  | cons st rest ih =>
    intro acc p h
    rw [List.foldl_cons] at h
    rcases ih (denomStep acc st) p h with h1 | h1
    · rcases denomStep_mem acc st p h1 with h2 | h2
      · exact Or.inl h2
      · exact Or.inr ⟨st, List.mem_cons_self st rest, h2⟩
    · obtain ⟨st1, hst1, hfrom⟩ := h1
      exact Or.inr ⟨st1, List.mem_cons_of_mem st hst1, hfrom⟩

theorem buildDenoms_mem (studies : List CBioStudy) (p : String × Nat × String)
    (h : p ∈ buildDenoms studies) : ∃ st ∈ studies, denomEntryFrom st p := by
  rcases buildDenoms_mem_aux studies [] p h with h1 | h1
  · simp at h1
  · exact h1

/-! ### The harmonizer on standard-format input -/

theorem isUpper_not_ws (c : Char) (h : c.isUpper = true) : c.isWhitespace = false := by
  by_contra hw
  rw [Bool.not_eq_false] at hw
  simp only [Char.isWhitespace, Bool.or_eq_true, decide_eq_true_eq] at hw
  rcases hw with ((h1 | h1) | h1) | h1 <;> subst h1 <;> exact absurd h (by decide)

theorem pyStrip_of_shape (c x : Char) (mid : List Char)
    (hc : c.isWhitespace = false) (hx : x.isWhitespace = false) (s : String)
    (hs : s.toList = c :: (mid ++ [x])) : pyStrip s = s := by
  unfold pyStrip
  rw [hs]
  rw [List.dropWhile_cons, if_neg (by simp [hc])]
  have hrev : (c :: (mid ++ [x])).reverse = x :: (mid.reverse ++ [c]) := by
    simp
  rw [hrev, List.dropWhile_cons, if_neg (by simp [hx])]
  have hrev2 : (x :: (mid.reverse ++ [c])).reverse = c :: (mid ++ [x]) := by
    simp
  rw [hrev2, ← hs]
  rfl

theorem standard_shape (s : String) (h : is_standard_format s = true) :
    ∃ c ds x, s.toList = 'p' :: '.' :: c :: (ds ++ [x]) ∧ c.isUpper = true ∧
      (x.isUpper = true ∨ x = '*') := by
  unfold is_standard_format at h
  cases hls : s.toList with
  | nil => rw [hls] at h; simp at h
  | cons a l1 =>
    cases l1 with
    | nil => rw [hls] at h; simp at h
    | cons b l2 =>
      cases l2 with
      | nil => rw [hls] at h; simp at h
      | cons c rest =>
        rw [hls] at h
        simp only [Bool.and_eq_true, beq_iff_eq, Bool.not_eq_true'] at h
        obtain ⟨⟨⟨⟨ha, hb⟩, hc⟩, hne⟩, hx⟩ := h
        cases hdw : rest.dropWhile Char.isDigit with
        | nil => rw [hdw] at hx; simp at hx
        | cons x tail =>
          cases tail with
          | cons y tail2 => rw [hdw] at hx; simp at hx
          | nil =>
            rw [hdw] at hx
            simp only [Bool.or_eq_true, beq_iff_eq] at hx
            refine ⟨c, rest.takeWhile Char.isDigit, x, ?_, hc, hx⟩
            have h2 : rest = rest.takeWhile Char.isDigit ++ [x] := by
              conv_lhs => rw [← List.takeWhile_append_dropWhile (p := Char.isDigit) (l := rest)]
              rw [hdw]
            rw [ha, hb]
            exact congrArg (fun l => 'p' :: '.' :: c :: l) h2

theorem standard_pyStrip (s : String) (h : is_standard_format s = true) :
    pyStrip s = s := by
  obtain ⟨c, ds, x, hshape, hc, hx⟩ := standard_shape s h
  have hxw : x.isWhitespace = false := by
    rcases hx with h1 | h1
    · exact isUpper_not_ws x h1
    · subst h1; decide
  apply pyStrip_of_shape 'p' x ('.' :: c :: ds) (by decide) hxw s
  rw [hshape]
  rfl

theorem standard_harmonize (s : String) (h : is_standard_format s = true) :
    harmonize_protein_change s = s := by
  have hne : s ≠ "" := by
    intro he
    obtain ⟨c, ds, x, hshape, -, -⟩ := standard_shape s h
    rw [he] at hshape
    simp at hshape
  have hstrip : pyStrip s = s := standard_pyStrip s h
  unfold harmonize_protein_change
  rw [if_neg hne]
  simp only [hstrip, h, if_true]

theorem fallback_harmonize (s : String) (h1 : is_standard_format (pyStrip s) = false)
    (h2 : parse_protein_change (pyStrip s) = none) :
    harmonize_protein_change s = pyStrip s := by
  unfold harmonize_protein_change
  by_cases he : s = ""
  · rw [if_pos he, he]
    decide
  · rw [if_neg he]
    simp only [h1, Bool.false_eq_true, if_false, h2]

/-! ### Rows of the COSMIC catalog path -/

theorem foldl_catalogRow (l : List (String × CosmicGroup)) :
    ∀ (acc : List CosmicCatalogRecord) (r : CosmicCatalogRecord),
      r ∈ l.foldl (fun results kg => results ++ [catalogRow kg]) acc →
      r ∈ acc ∨ ∃ kg, r = catalogRow kg := by
  induction l with
  | nil =>
    intro acc r h
    exact Or.inl h
  | cons kg rest ih =>
    intro acc r h
    rcases ih (acc ++ [catalogRow kg]) r h with h1 | h1
    · rcases List.mem_append.1 h1 with h2 | h2
      · exact Or.inl h2
      · exact Or.inr ⟨kg, by simpa using h2⟩
    · exact Or.inr h1

theorem cosmic_catalog_tier (mutations : List CosmicMutation) (r : CosmicCatalogRecord)
    (h : r ∈ process_cosmic_as_catalog mutations) :
    r.quality_tier = DataQuality.occurrenceCount.val := by
  unfold process_cosmic_as_catalog at h
  rcases foldl_catalogRow _ [] r h with h1 | ⟨kg, hkg⟩
  · simp at h1
  · subst hkg
    rfl

/-! ### The production Wilson interval (z = norm.ppf(0.975)) at 30/100 -/

/-- Value of `round4R` pinned by bracketing the scaled argument between two
consecutive integers. -/
theorem round4R_eq_of_bounds (x : ℝ) (n : ℤ) (hl : (n : ℝ) ≤ x * 10 ^ 4 + 1 / 2)
    (hu : x * 10 ^ 4 + 1 / 2 < n + 1) : round4R x = (n : ℝ) / 10 ^ 4 := by
  unfold round4R
  have hfl : ⌊x * 10 ^ 4 + 1 / 2⌋ = n := by
    rw [Int.floor_eq_iff]
    exact ⟨hl, hu⟩
  rw [hfl]

/-- The clean pipeline's interval is the symbolic one at z = 1.96. -/
theorem wilsonReal_eq_wilsonRealZ (s t : ℕ) : wilsonReal s t = wilsonRealZ 1.96 s t := rfl

set_option maxHeartbeats 1600000 in
/-- For every z in the bracket [1.959963, 1.959965] — which contains the
production constant `norm.ppf(0.975)` = 1.95996398454... however the float
is idealized — the Wilson bounds at successes 30, trials 100 round to
ci_low 0.2189 and ci_high 0.3958 (the latter differs from the 0.3959 that
z = 1.96 yields). -/
theorem wilson_prod_lo_hi (z : ℝ) (h1 : (1.959963 : ℝ) ≤ z) (h2 : z ≤ 1.959965) :
    round4R (max 0 ((30 / 100 + z ^ 2 / (2 * 100)) / (1 + z ^ 2 / 100) -
        z * Real.sqrt (30 / 100 * (1 - 30 / 100) / 100 + z ^ 2 / (4 * 100 ^ 2)) /
          (1 + z ^ 2 / 100))) = 2189 / 10 ^ 4 ∧
    round4R (min 1 ((30 / 100 + z ^ 2 / (2 * 100)) / (1 + z ^ 2 / 100) +
        z * Real.sqrt (30 / 100 * (1 - 30 / 100) / 100 + z ^ 2 / (4 * 100 ^ 2)) /
          (1 + z ^ 2 / 100))) = 3958 / 10 ^ 4 := by
  have hz0 : (0 : ℝ) < z := by linarith
  have hu1 : (3.841454961369 : ℝ) ≤ z ^ 2 := by nlinarith
  have hu2 : z ^ 2 ≤ (3.841462801225 : ℝ) := by nlinarith
  have hD : (0 : ℝ) < 1 + z ^ 2 / 100 := by positivity
  have hs_up : Real.sqrt (30 / 100 * (1 - 30 / 100) / 100 + z ^ 2 / (4 * 100 ^ 2)) ≤
      (0.046861888247 : ℝ) := by
    have hRb : (30 : ℝ) / 100 * (1 - 30 / 100) / 100 + z ^ 2 / (4 * 100 ^ 2) ≤
        (0.046861888247 : ℝ) ^ 2 := by nlinarith
    calc Real.sqrt (30 / 100 * (1 - 30 / 100) / 100 + z ^ 2 / (4 * 100 ^ 2)) ≤
        Real.sqrt ((0.046861888247 : ℝ) ^ 2) := Real.sqrt_le_sqrt hRb
      _ = (0.046861888247 : ℝ) := Real.sqrt_sq (by norm_num)
  have hs_lo : (0.046861886155 : ℝ) ≤
      Real.sqrt (30 / 100 * (1 - 30 / 100) / 100 + z ^ 2 / (4 * 100 ^ 2)) := by
    refine (Real.le_sqrt (by norm_num) (by positivity)).2 ?_
    nlinarith
  have hsn : (0 : ℝ) ≤ Real.sqrt (30 / 100 * (1 - 30 / 100) / 100 + z ^ 2 / (4 * 100 ^ 2)) :=
    Real.sqrt_nonneg _
  have hM_up : z * Real.sqrt (30 / 100 * (1 - 30 / 100) / 100 + z ^ 2 / (4 * 100 ^ 2)) ≤
      (1.959965 : ℝ) * 0.046861888247 := by
    nlinarith [hs_up, hsn]
  have hM_lo : (1.959963 : ℝ) * 0.046861886155 ≤
      z * Real.sqrt (30 / 100 * (1 - 30 / 100) / 100 + z ^ 2 / (4 * 100 ^ 2)) := by
    nlinarith [hs_lo, hsn]
  have hlo1 : (0.21885 : ℝ) ≤ (30 / 100 + z ^ 2 / (2 * 100)) / (1 + z ^ 2 / 100) -
      z * Real.sqrt (30 / 100 * (1 - 30 / 100) / 100 + z ^ 2 / (4 * 100 ^ 2)) /
        (1 + z ^ 2 / 100) := by
    rw [div_sub_div_same, le_div_iff₀ hD]
    nlinarith [hM_up]
  have hlo2 : (30 / 100 + z ^ 2 / (2 * 100)) / (1 + z ^ 2 / 100) -
      z * Real.sqrt (30 / 100 * (1 - 30 / 100) / 100 + z ^ 2 / (4 * 100 ^ 2)) /
        (1 + z ^ 2 / 100) < (0.21895 : ℝ) := by
    rw [div_sub_div_same, div_lt_iff₀ hD]
    nlinarith [hM_lo]
  have hhi1 : (0.39575 : ℝ) ≤ (30 / 100 + z ^ 2 / (2 * 100)) / (1 + z ^ 2 / 100) +
      z * Real.sqrt (30 / 100 * (1 - 30 / 100) / 100 + z ^ 2 / (4 * 100 ^ 2)) /
        (1 + z ^ 2 / 100) := by
    rw [div_add_div_same, le_div_iff₀ hD]
    nlinarith [hM_lo]
  have hhi2 : (30 / 100 + z ^ 2 / (2 * 100)) / (1 + z ^ 2 / 100) +
      z * Real.sqrt (30 / 100 * (1 - 30 / 100) / 100 + z ^ 2 / (4 * 100 ^ 2)) /
        (1 + z ^ 2 / 100) < (0.39585 : ℝ) := by
    rw [div_add_div_same, div_lt_iff₀ hD]
    nlinarith [hM_up]
  set L := (30 / 100 + z ^ 2 / (2 * 100)) / (1 + z ^ 2 / 100) -
      z * Real.sqrt (30 / 100 * (1 - 30 / 100) / 100 + z ^ 2 / (4 * 100 ^ 2)) /
        (1 + z ^ 2 / 100) with hLdef
  set H := (30 / 100 + z ^ 2 / (2 * 100)) / (1 + z ^ 2 / 100) +
      z * Real.sqrt (30 / 100 * (1 - 30 / 100) / 100 + z ^ 2 / (4 * 100 ^ 2)) /
        (1 + z ^ 2 / 100) with hHdef
  clear_value L H
  constructor
  · have h0 : (0 : ℝ) ≤ L := by linarith
    rw [max_eq_right h0]
    have hr := round4R_eq_of_bounds L 2189 (by push_cast; linarith) (by push_cast; linarith)
    rw [hr]
    norm_num
  · have hle1 : H ≤ (1 : ℝ) := by linarith
    rw [min_eq_right hle1]
    have hr := round4R_eq_of_bounds H 3958 (by push_cast; linarith) (by push_cast; linarith)
    rw [hr]
    norm_num

/-- The full production Wilson triple at successes 30, trials 100, for any z
in the bracket containing `norm.ppf(0.975)`: frequency 0.3000, ci_low
0.2189, ci_high 0.3958. -/
theorem wilsonRealZ_prod_at_30_100 (z : ℝ) (h1 : (1.959963 : ℝ) ≤ z)
    (h2 : z ≤ 1.959965) :
    wilsonRealZ z 30 100 = (3000 / 10 ^ 4, 2189 / 10 ^ 4, 3958 / 10 ^ 4) := by
  obtain ⟨hlo, hhi⟩ := wilson_prod_lo_hi z h1 h2
  unfold wilsonRealZ
  rw [if_neg (by norm_num : ¬(100 : ℕ) = 0)]
  have h30 : ((30 : ℕ) : ℝ) = 30 := by norm_num
  have h100 : ((100 : ℕ) : ℝ) = 100 := by norm_num
  simp only [h30, h100]
  refine Prod.ext ?_ (Prod.ext ?_ ?_)
  · have hr := round4R_eq_of_bounds ((30 : ℝ) / 100) 3000 (by norm_num) (by norm_num)
    rw [hr]
    norm_num
  · exact hlo
  · exact hhi

/-! ## The claims -/

/-- C1: every record emitted by `process_cbioportal_with_frequencies` cites
pairwise-distinct contributing studies, and its `total_samples_tested` is the
sum of the denominator-map values of those distinct studies — a study's
denominator is counted exactly once no matter how many mutation rows of the
group reference it. -/
theorem claim_C1_denominator_conservation (mutations : List CBioMutation)
    (studies : List CBioStudy) (r : MutationFrequency)
    (h : r ∈ process_cbioportal_with_frequencies mutations studies) :
    r.study_ids.Nodup ∧
      r.total_samples_tested =
        (r.study_ids.map (denomTotal (buildDenoms studies))).sum := by
  rcases (mem_process_iff mutations studies r).1 h with ⟨kg, hkg, hpg⟩
  obtain ⟨-, -, -, -, htot, -, hsids, -⟩ := processGroup_eq_some kg r hpg
  have hinv := buildGroups_inv mutations (buildDenoms studies) kg hkg
  unfold GroupInv at hinv
  obtain ⟨h1, h2, -⟩ := hinv
  refine ⟨?_, ?_⟩
  · rw [hsids]
    exact h2
  · rw [htot, hsids, h1, sumValues_map]

/-- C1 witness: fifty mutation rows of one variant, all from a single study
with denominator 500, yield a record with `total_samples_tested` = 500
(not 25000) and 50 distinct samples. -/
theorem claim_C1_witness :
    fiftyRecord ∈ process_cbioportal_with_frequencies fiftyMutations study500 ∧
      fiftyRecord.study_ids.Nodup ∧
      fiftyRecord.total_samples_tested =
        (fiftyRecord.study_ids.map (denomTotal (buildDenoms study500))).sum ∧
      fiftyRecord.total_samples_tested = 500 ∧
      fiftyRecord.samples_with_mutation = 50 := by
  have hmem : fiftyRecord ∈ process_cbioportal_with_frequencies fiftyMutations study500 := by
    decide
  have h := claim_C1_denominator_conservation fiftyMutations study500 fiftyRecord hmem
  exact ⟨hmem, h.1, h.2, by decide, by decide⟩

/-- C2: every record emitted by `process_cbioportal_with_frequencies`
satisfies 0 ≤ frequency ≤ 1, samples_with_mutation ≤ total_samples_tested
and ci_95_low ≤ frequency ≤ ci_95_high, reading each fixed-point field
divided by 10^4 as the real value. -/
theorem claim_C2_record_invariants (mutations : List CBioMutation)
    (studies : List CBioStudy) (r : MutationFrequency)
    (h : r ∈ process_cbioportal_with_frequencies mutations studies) :
    (0 : ℚ) ≤ (r.frequency4 : ℚ) / 10 ^ 4 ∧ (r.frequency4 : ℚ) / 10 ^ 4 ≤ 1 ∧
      r.samples_with_mutation ≤ r.total_samples_tested ∧
      (r.ci_95_low4 : ℚ) / 10 ^ 4 ≤ (r.frequency4 : ℚ) / 10 ^ 4 ∧
      (r.frequency4 : ℚ) / 10 ^ 4 ≤ (r.ci_95_high4 : ℚ) / 10 ^ 4 := by
  rcases (mem_process_iff mutations studies r).1 h with ⟨kg, hkg, hpg⟩
  obtain ⟨-, -, -, -, -, -, -, -, -, hle, h0, h1, hlo, hhi⟩ := processGroup_eq_some kg r hpg
  have hq : (0 : ℚ) < 10 ^ 4 := by norm_num
  refine ⟨?_, ?_, hle, ?_, ?_⟩
  · exact div_nonneg (by exact_mod_cast h0) hq.le
  · rw [div_le_one hq]
    exact_mod_cast h1
  · exact (div_le_div_right hq).2 (by exact_mod_cast hlo)
  · exact (div_le_div_right hq).2 (by exact_mod_cast hhi)

/-- C2 witness: the three-row NRAS scenario emits a record and the three
invariants hold for it. -/
theorem claim_C2_witness :
    nrasRecord ∈ process_cbioportal_with_frequencies nrasMutations skcmStudies ∧
      (0 : ℚ) ≤ (nrasRecord.frequency4 : ℚ) / 10 ^ 4 ∧
      (nrasRecord.frequency4 : ℚ) / 10 ^ 4 ≤ 1 ∧
      nrasRecord.samples_with_mutation ≤ nrasRecord.total_samples_tested ∧
      (nrasRecord.ci_95_low4 : ℚ) / 10 ^ 4 ≤ (nrasRecord.frequency4 : ℚ) / 10 ^ 4 ∧
      (nrasRecord.frequency4 : ℚ) / 10 ^ 4 ≤ (nrasRecord.ci_95_high4 : ℚ) / 10 ^ 4 := by
  have hmem : nrasRecord ∈ process_cbioportal_with_frequencies nrasMutations skcmStudies := by
    decide
  have h := claim_C2_record_invariants nrasMutations skcmStudies nrasRecord hmem
  exact ⟨hmem, h.1, h.2.1, h.2.2.1, h.2.2.2.1, h.2.2.2.2⟩

/-- C3 counterexample: the claim fails for the production implementation,
whose z is `norm.ppf(0.975)` rather than the claimed 1.96: at the claim's
own test point (successes 30, trials 100), for every z in a bracket that
contains `norm.ppf(0.975)` however the float is idealized, the production
Wilson formula's rounded ci_high is 0.3958 — while the z = 1.96 formula
(and the z = 1.96 integer embedding used by the aggregator model) returns
0.3959, so the two cited implementations do not agree to 4 decimals there
and the production one misses the claimed closed-form z = 1.96 value. -/
theorem claim_C3_counterexample :
    (∀ z : ℝ, 1.959963 ≤ z → z ≤ 1.959965 →
      (wilsonRealZ z 30 100).2.2 = 3958 / 10 ^ 4) ∧
    (calculate_wilson_ci 30 100).2.2 = 3959 ∧
    (wilsonReal 30 100).2.2 = 3959 / 10 ^ 4 ∧
    ((3958 : ℝ) / 10 ^ 4 ≠ 3959 / 10 ^ 4) := by
  refine ⟨?_, by decide, ?_, by norm_num⟩
  · intro z hz1 hz2
    rw [wilsonRealZ_prod_at_30_100 z hz1 hz2]
  · have h := calculate_wilson_ci_models_real 30 100 (by norm_num) (by norm_num)
    have h2 : ((calculate_wilson_ci 30 100).2.2 : ℝ) / 10 ^ 4 = (wilsonReal 30 100).2.2 := by
      rw [← h]
    have hv : (calculate_wilson_ci 30 100).2.2 = 3959 := by decide
    rw [← h2, hv]
    norm_num

/-- C3 amended: with z = 1.96 — the literal of
`CleanAggregator._calculate_wilson_ci`, the value the claim states — the
integer triple returned by `calculate_wilson_ci`, read in ten-thousandths,
equals the real-valued Wilson score interval (p-hat = s/t,
denom = 1 + z²/t, center = (p-hat + z²/(2t))/denom,
margin = z·sqrt(p-hat(1−p-hat)/t + z²/(4t²))/denom, clamped to [0,1],
rounded to 4 decimals) for all s ≤ t, t > 0, and at s = 30, t = 100 it
returns frequency 0.3000 and CI [0.2189, 0.3959]; but
`ProductionAggregator._calculate_wilson_ci` uses z = norm.ppf(0.975), and
with that z (any z in a bracket containing it) the same test point yields
ci_high 0.3958, one ten-thousandth below the claimed z = 1.96 value. -/
theorem claim_C3_amended :
    (∀ s t : ℕ, wilsonReal s t = wilsonRealZ 1.96 s t) ∧
    (∀ s t : ℕ, s ≤ t → 0 < t →
      (((calculate_wilson_ci s t).1 : ℝ) / 10 ^ 4,
        ((calculate_wilson_ci s t).2.1 : ℝ) / 10 ^ 4,
        ((calculate_wilson_ci s t).2.2 : ℝ) / 10 ^ 4) = wilsonReal s t) ∧
    calculate_wilson_ci 30 100 = (3000, 2189, 3959) ∧
    (∀ z : ℝ, 1.959963 ≤ z → z ≤ 1.959965 →
      wilsonRealZ z 30 100 = (3000 / 10 ^ 4, 2189 / 10 ^ 4, 3958 / 10 ^ 4)) :=
  ⟨wilsonReal_eq_wilsonRealZ, calculate_wilson_ci_models_real, by decide,
    wilsonRealZ_prod_at_30_100⟩

/-- C4: mutations whose study id does not resolve in the denominator map are
invisible to the frequency path (filtering them away leaves the output
unchanged); every frequency record is tagged population_frequency and cites
only resolved studies; and every record of the denominator-less COSMIC
catalog path is tagged occurrence_count. -/
theorem claim_C4_denominatorless_exclusion (mutations : List CBioMutation)
    (studies : List CBioStudy) :
    (process_cbioportal_with_frequencies mutations studies =
      process_cbioportal_with_frequencies
        (mutations.filter (mutResolved (buildDenoms studies))) studies) ∧
    (∀ r ∈ process_cbioportal_with_frequencies mutations studies,
      r.quality_tier = DataQuality.populationFrequency ∧
      ∀ sid ∈ r.study_ids, (lookupAssoc sid (buildDenoms studies)).isSome = true) ∧
    (∀ (cosmic : List CosmicMutation), ∀ r ∈ process_cosmic_as_catalog cosmic,
      r.quality_tier = DataQuality.occurrenceCount.val) := by
  refine ⟨?_, ?_, ?_⟩
  · rw [process_eq_filterMap, process_eq_filterMap, ← buildGroups_filter]
  · intro r hr
    rcases (mem_process_iff mutations studies r).1 hr with ⟨kg, hkg, hpg⟩
    obtain ⟨-, -, -, -, -, -, hsids, htier, -⟩ := processGroup_eq_some kg r hpg
    have hinv := buildGroups_inv mutations (buildDenoms studies) kg hkg
    unfold GroupInv at hinv
    obtain ⟨-, -, h3⟩ := hinv
    refine ⟨htier, ?_⟩
    rw [hsids]
    exact h3
  · intro cosmic r hr
    exact cosmic_catalog_tier cosmic r hr

/-- C4 witness: in the mixed scenario every emitted record resolves its
studies, and the claim's three conjuncts hold at that concrete input. -/
theorem claim_C4_witness :
    (process_cbioportal_with_frequencies mixMutations mixStudies =
      process_cbioportal_with_frequencies
        (mixMutations.filter (mutResolved (buildDenoms mixStudies))) mixStudies) ∧
    nrasRecord.quality_tier = DataQuality.populationFrequency :=
  ⟨(claim_C4_denominatorless_exclusion mixMutations mixStudies).1, by decide⟩

/-- C5 counterexample: in the specified BRAF scenario (3 standardized
BRAF V600E Melanoma mutations, distinct samples S1-S3, one study of
denominator 450) the aggregation output is empty — not one record — because
the observed frequency 0.0067 is below 10% of the hotspot table's 0.30
minimum for BRAF V600E, so `_validate_frequency` rejects the record. -/
theorem claim_C5_counterexample :
    ¬(process_cbioportal_with_frequencies brafMutations skcmStudies).length = 1 := by
  decide

/-- C5 amended: the BRAF scenario builds exactly the expected group (3
distinct samples, denominator 450 counted once) and the constructed record
has samples_with_mutation = 3, total_samples_tested = 450, frequency =
0.0067, CI [0.0023, 0.0194] and tier population_frequency — but the hotspot
plausibility gate fires (0.0067 < 0.1·0.30), `_validate_frequency` returns
false, and the output is empty; the same scenario on NRAS (no hotspot row)
emits exactly that one record. -/
theorem claim_C5_amended :
    buildGroups brafMutations (buildDenoms skcmStudies) = [(brafKey, brafGroup)] ∧
    brafGroup.samples.length = 3 ∧
    sumValues brafGroup.study_denoms = 450 ∧
    calculate_wilson_ci 3 450 = (67, 23, 194) ∧
    mkMutationFrequency "BRAF" "Melanoma" "V600E" 3 450 67 23 194 "cbioportal"
      ["skcm_study"] DataQuality.populationFrequency = some brafRecord ∧
    brafRecord.frequency4 = 67 ∧
    brafRecord.quality_tier = DataQuality.populationFrequency ∧
    hotspotRejects brafRecord = true ∧
    validate_frequency brafRecord = false ∧
    process_cbioportal_with_frequencies brafMutations skcmStudies = [] ∧
    process_cbioportal_with_frequencies nrasMutations skcmStudies = [nrasRecord] ∧
    nrasRecord.samples_with_mutation = 3 ∧
    nrasRecord.total_samples_tested = 450 ∧
    nrasRecord.frequency4 = 67 ∧
    nrasRecord.ci_95_low4 = 23 ∧
    nrasRecord.ci_95_high4 = 194 ∧
    nrasRecord.quality_tier = DataQuality.populationFrequency := by
  decide

/-- C6: `_validate_frequency` returns false for every record whose frequency
exceeds 0.95, hence no emitted record ever has frequency above 0.95; in
particular the synthetic record with frequency 0.99 is excluded. -/
theorem claim_C6_plausibility_gate :
    (∀ m : MutationFrequency, 9500 < m.frequency4 → validate_frequency m = false) ∧
    (∀ (mutations : List CBioMutation) (studies : List CBioStudy),
      ∀ r ∈ process_cbioportal_with_frequencies mutations studies,
        r.frequency4 ≤ 9500) ∧
    r99.frequency4 = 9900 ∧ validate_frequency r99 = false := by
  refine ⟨?_, ?_, rfl, by decide⟩
  · intro m hm
    exact (validate_frequency_false_iff m).2 (Or.inl hm)
  · intro mutations studies r hr
    rcases (mem_process_iff mutations studies r).1 hr with ⟨kg, hkg, hpg⟩
    obtain ⟨-, -, -, -, -, -, -, -, hv, -⟩ := processGroup_eq_some kg r hpg
    exact validate_frequency_true_bound r hv

/-- C7 counterexample: the gold-layer extractor does NOT prefer the
sequenced-sample-count field and does NOT exclude count-less studies: a
study with sequencedSampleCount = 50 and allSampleCount = 200 resolves to
200 (allSampleCount wins), and a study with every count field missing is
still entered with the default constant 100. -/
theorem claim_C7_counterexample :
    goldStudyA.sequencedSampleCount = some 50 ∧
    goldStudyA.allSampleCount = some 200 ∧
    goldSampleCount goldStudyA = 200 ∧
    goldStudyB.numberOfSamples = none ∧
    goldStudyB.allSampleCount = none ∧
    goldStudyB.cnaSampleCount = none ∧
    goldStudyB.sequencedSampleCount = none ∧
    goldSampleCount goldStudyB = 100 ∧
    extract_study_sample_counts [goldStudyA, goldStudyB] =
      [(some "TypeA", 200), (some "TypeB", 100)] := by
  decide

/-- C7 amended: the production aggregator's denominator map behaves as the
claim says — entries prefer sequencedSampleCount over allSampleCount and
only truthy study ids with positive resolved counts enter, with no default —
but the gold-layer extractor uses the priority numberOfSamples,
allSampleCount, cnaSampleCount, sequencedSampleCount and falls back to the
constant 100 when every field is missing or zero. -/
theorem claim_C7_amended :
    (∀ (studies : List CBioStudy) (p : String × Nat × String),
      p ∈ buildDenoms studies →
        p.1 ≠ "" ∧ 0 < p.2.1 ∧
        ∃ st ∈ studies, st.studyId = some p.1 ∧
          p.2 = (studySampleCount st, st.cancerTypeName.getD "Unknown")) ∧
    (∀ st : CBioStudy, st.sequencedSampleCount.getD 0 ≠ 0 →
      studySampleCount st = st.sequencedSampleCount.getD 0) ∧
    (∀ st : CBioStudy, st.sequencedSampleCount.getD 0 = 0 →
      studySampleCount st = st.allSampleCount.getD 0) ∧
    (∀ st : GoldStudy, st.numberOfSamples = some 0 ∨ st.numberOfSamples = none →
      st.allSampleCount = none → st.cnaSampleCount = none →
      st.sequencedSampleCount = none → goldSampleCount st = 100) ∧
    (∀ st : GoldStudy, ∀ n : Nat, n ≠ 0 → st.numberOfSamples = none →
      st.allSampleCount = some n → goldSampleCount st = n) := by
  refine ⟨?_, ?_, ?_, ?_, ?_⟩
  · intro studies p hp
    obtain ⟨st, hst, hfrom⟩ := buildDenoms_mem studies p hp
    unfold denomEntryFrom at hfrom
    obtain ⟨hid, hne, hpos, hval⟩ := hfrom
    refine ⟨hne, ?_, st, hst, hid, hval⟩
    rw [hval]
    exact hpos
  · intro st h
    unfold studySampleCount
    rw [if_pos h]
  · intro st h
    unfold studySampleCount
    rw [if_neg (by simp [h])]
  · intro st h1 h2 h3 h4
    unfold goldSampleCount
    rcases h1 with h1 | h1 <;> simp [firstTruthy, h1, h2, h3, h4]
  · intro st n hn h1 h2
    unfold goldSampleCount
    simp [firstTruthy, h1, h2, hn]

/-- C8 counterexample: the hotspot check consults no cancer-type
information: the BRAF V600E record for cancer type Lung — a type the
hotspot table does not document for BRAF — is still rejected because its
frequency 0.01 is below 10% of the table's 0.30 minimum. -/
theorem claim_C8_counterexample :
    validate_frequency lungRecord = false ∧
    lungRecord.gene_symbol = "BRAF" ∧
    lungRecord.protein_change = "V600E" ∧
    lungRecord.cancer_type = "Lung" ∧
    lungRecord.frequency4 ≤ 9500 ∧
    lungRecord.ci_95_high4 - lungRecord.ci_95_low4 ≤ 5000 ∧
    (∀ e ∈ known_hotspots, e.gene = "BRAF" → "Lung" ∉ e.cancer_types) := by
  decide

/-- C8 amended: the hotspot rejection fires exactly when some row of the
known-hotspot table matches the record's gene and variant (a literal "*"
variant or substring match) and the observed frequency is below 10% of the
row's documented minimum — the row's cancer_types list is never consulted,
so records of undocumented cancer types are rejected all the same. -/
theorem claim_C8_amended (m : MutationFrequency) :
    (hotspotRejects m = true ↔
      ∃ e ∈ known_hotspots, m.gene_symbol = e.gene ∧
        (e.variant = "*" ∨ strContains m.protein_change e.variant = true) ∧
        10 * m.frequency4 < e.min_freq4) ∧
    (validate_frequency m = false ↔
      (9500 < m.frequency4 ∨ hotspotRejects m = true ∨
        5000 < m.ci_95_high4 - m.ci_95_low4)) :=
  ⟨hotspotRejects_iff m, validate_frequency_false_iff m⟩

/-- C9 counterexample: `harmonize_protein_change` is not idempotent:
"Val600Del" maps to "p.V600Del", which is not standard (lowercase tail is
required for a deletion, uppercase for the regex), and re-applying the
function maps it to the different string "p.V600del". -/
theorem claim_C9_counterexample :
    harmonize_protein_change (harmonize_protein_change "Val600Del") ≠
      harmonize_protein_change "Val600Del" := by
  decide

/-- C9 amended: the harmonizer is total by construction and fixes every
string already in standard format, and when no pattern matches it returns
the stripped original unchanged; but it is not idempotent in general —
"Val600Del" maps to "p.V600Del" and then to "p.V600del", which is a fixed
point. -/
theorem claim_C9_amended :
    (∀ s : String, is_standard_format s = true → harmonize_protein_change s = s) ∧
    (∀ s : String, is_standard_format (pyStrip s) = false →
      parse_protein_change (pyStrip s) = none →
      harmonize_protein_change s = pyStrip s) ∧
    harmonize_protein_change "Val600Del" = "p.V600Del" ∧
    harmonize_protein_change "p.V600Del" = "p.V600del" ∧
    harmonize_protein_change "p.V600del" = "p.V600del" ∧
    harmonize_protein_change "" = "" :=
  ⟨standard_harmonize, fallback_harmonize, by decide, by decide, by decide, by decide⟩

/-- C10: dropping a group whose record construction fails an integrity
assertion is local: the output is the filterMap of `processGroup` over the
groups, every surviving group's record is emitted, and a failed group
suppresses only records bearing its own key; concretely, a KRAS group with
2 samples against total denominator 1 is dropped while the healthy NRAS
group of the same run is still emitted. -/
theorem claim_C10_drop_only_failed_group :
    (∀ (mutations : List CBioMutation) (studies : List CBioStudy),
      process_cbioportal_with_frequencies mutations studies =
        (buildGroups mutations (buildDenoms studies)).filterMap processGroup ∧
      (∀ kg ∈ buildGroups mutations (buildDenoms studies), ∀ r,
        processGroup kg = some r →
          r ∈ process_cbioportal_with_frequencies mutations studies) ∧
      (∀ kg ∈ buildGroups mutations (buildDenoms studies),
        processGroup kg = none →
        ∀ r ∈ process_cbioportal_with_frequencies mutations studies,
          (r.gene_symbol, r.cancer_type, r.protein_change) ≠ kg.1)) ∧
    ((krasKey, krasGroup) ∈ buildGroups mixMutations (buildDenoms mixStudies) ∧
      krasGroup.samples.length = 2 ∧
      sumValues krasGroup.study_denoms = 1 ∧
      processGroup (krasKey, krasGroup) = none ∧
      process_cbioportal_with_frequencies mixMutations mixStudies = [nrasRecord]) := by
  constructor
  · intro mutations studies
    refine ⟨process_eq_filterMap mutations studies, ?_, ?_⟩
    · intro kg hkg r hpg
      rw [mem_process_iff]
      exact ⟨kg, hkg, hpg⟩
    · intro kg hkg hnone r hr hkey
      rcases (mem_process_iff mutations studies r).1 hr with ⟨kg2, hkg2, hpg2⟩
      obtain ⟨hg, hcnc, hpc, -⟩ := processGroup_eq_some kg2 r hpg2
      have hkeq : kg2.1 = kg.1 := by
        rw [← hkey, hg, hcnc, hpc]
      have heq := assoc_same_key_eq (buildGroups mutations (buildDenoms studies))
        (buildGroups_keys_nodup mutations (buildDenoms studies)) kg2 hkg2 kg hkg hkeq
      rw [heq, hnone] at hpg2
      exact absurd hpg2 (by simp)
  · exact ⟨by decide, by decide, by decide, by decide, by decide⟩

end Onco

